import Mathlib

/-!
Shallow embedding of the `social-rss` feed generator (modules
`social_rss/rss.py` and `social_rss/vk.py`) together with proofs about it.

Python dictionaries with possibly-missing keys are modelled as structures of
`Option` fields; a dictionary access that may raise `KeyError`/`IndexError`
becomes a bind in the `Except String` monad.  Regular-expression based text
substitution is modelled by explicit scanner functions over `List Char`
mirroring the leftmost, lazy/greedy semantics of the concrete patterns in the
source.  Recursive scanners take an explicit fuel argument (always called with
`length + 1`, enough for the whole input) so that they are structurally
recursive and computable by `decide`/`rfl`.
-/

namespace SocialRss

/-- ASCII whitespace, as matched by the `\s` class of the `bytes` regex
`br">\s+<"` of `rss.generate` (rss.py line 25); a bytes pattern never
matches code points above `0x7f`. -/
def isWsC (c : Char) : Bool :=
  c = ' ' ∨ c = '\t' ∨ c = '\n' ∨ c = '\r' ∨ c = '\x0b' ∨ c = '\x0c'

/-- Unicode whitespace, as matched by the `\s` class of the `str` regexes
`_TEXT_URL_RE` and `_DOMAIN_ONLY_TEXT_URL_RE` (vk.py lines 26-31) and
stripped by `str.strip()` (vk.py line 294): the ASCII whitespace
characters together with the other code points Python treats as
whitespace (`Py_UNICODE_ISSPACE`): U+1C-U+1F, U+85, U+A0, U+1680,
U+2000-U+200A, U+2028, U+2029, U+202F, U+205F and U+3000. -/
def isWsU (c : Char) : Bool :=
  isWsC c ∨ c.toNat = 0x1c ∨ c.toNat = 0x1d ∨ c.toNat = 0x1e ∨
  c.toNat = 0x1f ∨ c.toNat = 0x85 ∨ c.toNat = 0xa0 ∨ c.toNat = 0x1680 ∨
  (0x2000 ≤ c.toNat ∧ c.toNat ≤ 0x200a) ∨ c.toNat = 0x2028 ∨
  c.toNat = 0x2029 ∨ c.toNat = 0x202f ∨ c.toNat = 0x205f ∨ c.toNat = 0x3000

/-- Lower-case letter or digit: the `[a-z0-9]` class of `_DOMAIN_ONLY_TEXT_URL_RE`. -/
def alnumLower (c : Char) : Bool :=
  ('a' ≤ c ∧ c ≤ 'z') ∨ ('0' ≤ c ∧ c ≤ '9')

/-- The `[-a-z0-9]` class of `_DOMAIN_ONLY_TEXT_URL_RE`. -/
def dashAlnumLower (c : Char) : Bool :=
  c = '-' ∨ alnumLower c

/-- Python dictionary access `d[k]`: raises (`Except.error`) when the key is
missing, modelled on an `Option` field. -/
def getOpt (o : Option α) (key : String) : Except String α :=
  match o with
  | some a => Except.ok a
  | none => Except.error ("KeyError: " ++ key)

/-- Python list indexing `l[i]`: raises `IndexError` when out of range. -/
def getIdx (l : List α) (i : Nat) : Except String α :=
  match l.drop i with
  | a :: _ => Except.ok a
  | [] => Except.error "IndexError: list index out of range"

/-- Python `set.add`-style insertion on a list modelling a set of strings. -/
def insertCat (cats : List String) (s : String) : List String :=
  if s ∈ cats then cats else cats ++ [s]

/-- Python `str.strip()`: leading and trailing Unicode whitespace
removed. -/
def stripChars (l : List Char) : List Char :=
  ((l.dropWhile (fun c => isWsU c)).reverse.dropWhile (fun c => isWsU c)).reverse

/-- Number of occurrences (at every position, overlapping included) of the
pattern `pat` as a contiguous substring of `l`. -/
def countOccs (pat : List Char) : List Char → Nat
  | [] => if pat.isEmpty then 1 else 0
  | c :: rest => (if pat.isPrefixOf (c :: rest) then 1 else 0) + countOccs pat rest

/- ----------------------------------------------------------------------
Primitive renderers.  The `social_rss.render` module is not part of the
sources under verification, so these are modelled from the spec.
---------------------------------------------------------------------- -/

/-- Modelled from the spec: `social_rss.render.block`, the atomic
paragraph/block HTML builder (module `social_rss/render.py` is missing from
the sources). -/
def _block (s : String) : String := "<p>" ++ s ++ "</p>"

/-- Modelled from the spec: `social_rss.render.em`, the emphasis builder. -/
def _em (s : String) : String := "<em>" ++ s ++ "</em>"

/-- Modelled from the spec: `social_rss.render.image`, the image builder. -/
def _image (url : String) : String := "<img src='" ++ url ++ "' />"

/-- Modelled from the spec: `social_rss.render.link`, the anchor builder.
URLs are enclosed in single quotes, which is why the URL classes of the
source regexes exclude `'`. -/
def _link (url : String) (html : String) : String :=
  "<a href='" ++ url ++ "'>" ++ html ++ "</a>"

/-- Modelled from the spec: `social_rss.render.image_block`, an image link
followed by a caption. -/
def _image_block (url : String) (image_url : String) (html : String) : String :=
  _block (_link url (_image image_url) ++ html)

/-- Modelled from the spec: `social_rss.render.quote_block`, a quotation
block wrapping a body. -/
def _quote_block (text : String) (html : String) : String :=
  "<blockquote>" ++ text ++ "</blockquote>" ++ html

/-- Modelled from the spec: one cell of `social_rss.render.table`. -/
def tableCell (s : String) : String := "<td>" ++ s ++ "</td>"

/-- Modelled from the spec: one row of `social_rss.render.table`. -/
def tableRow (r : List String) : String :=
  "<tr>" ++ String.join (r.map tableCell) ++ "</tr>"

/-- Modelled from the spec: `social_rss.render.table`, the two-column table
builder (the column spacing parameter does not affect the text content). -/
def _table (rows : List (List String)) (_column_spacing : Nat) : String :=
  "<table>" ++ String.join (rows.map tableRow) ++ "</table>"

/- ----------------------------------------------------------------------
`social_rss/rss.py`: whitespace compaction of the serialized feed.
---------------------------------------------------------------------- -/

/-- Fueled scanner for `re.sub(br">\s+<", b"><", rss)` in `rss.generate`:
at each position, a `>` followed by at least one whitespace character and
then `<` has the whitespace removed; scanning resumes after the `<`. -/
def compactF : Nat → List Char → List Char
  | 0, l => l
  | _ + 1, [] => []
  | f + 1, c :: r =>
    if c = '>' then
      let run := r.takeWhile (fun d => isWsC d)
      let rest := r.dropWhile (fun d => isWsC d)
      if run ≠ [] ∧ rest.head? = some '<' then
        '>' :: '<' :: compactF f rest.tail
      else
        '>' :: compactF f r
    else c :: compactF f r

/-- The whitespace compaction applied by `rss.generate` in production mode. -/
def compactChars (l : List Char) : List Char := compactF (l.length + 1) l

/-- `rss.generate` (`src/social_rss/rss.py` lines 18-28): the template
rendering itself is an external collaborator (the `rss.rss` template is not
under `src/`), so `generate` is modelled on the already-serialized feed
bytes; in debug mode the serializer output is returned unmodified, otherwise
inter-tag whitespace is compacted. -/
def generate (debug_mode : Bool) (rss : String) : String :=
  if debug_mode then rss else String.mk (compactChars rss.data)

/- ----------------------------------------------------------------------
`social_rss/vk.py`: URL helpers.
---------------------------------------------------------------------- -/

/-- `_get_profile_name` (vk.py lines 171-174). -/
def _get_profile_name (user_id : Int) : String :=
  (if user_id < 0 then "club" else "id") ++ toString user_id.natAbs

/-- `_vk_id` (vk.py lines 183-189). -/
def _vk_id (obj_type : String) (owner_id : Int) (object_id : Option Int) : String :=
  match object_id with
  | none => obj_type ++ toString owner_id
  | some oid => obj_type ++ toString owner_id ++ "_" ++ toString oid

/-- `_vk_url` (vk.py lines 192-198), plain-object form. -/
def _vk_url (obj : String) : String := "https://vk.com/" ++ obj

/-- `_vk_url` (vk.py lines 192-198), form with owner/object ids. -/
def _vk_url_id (obj : String) (owner_id : Int) (object_id : Option Int) : String :=
  _vk_url (_vk_id obj owner_id object_id)

/-- `_get_user_url` (vk.py lines 177-180). -/
def _get_user_url (user_id : Int) : String :=
  _vk_url (_get_profile_name user_id)

/-- `_vk_link` (vk.py lines 226-229). -/
def _vk_link (target : String) (html : String) : String :=
  _link (_vk_url target) html

/- ----------------------------------------------------------------------
`_parse_text` (vk.py lines 287-294): the three regex substitution passes.
---------------------------------------------------------------------- -/

/-- The third group of `_TEXT_URL_RE` and `_DOMAIN_ONLY_TEXT_URL_RE`:
`(\.?(?:<|\s|$))`, matched at the head of the remaining input; returns the
consumed characters and the rest. -/
def matchTail : List Char → Option (List Char × List Char)
  | [] => some ([], [])
  | c :: r =>
    if c = '.' then
      match r with
      | [] => some (['.'], [])
      | d :: r2 => if d = '<' ∨ isWsU d then some (['.', d], r2) else none
    else if c = '<' ∨ isWsU c then some ([c], r) else none

/-- The lazy `[^']+?` group followed by the tail group: grows the match one
character at a time, testing the tail group before every extension, exactly
as a lazy quantifier backtracks.  Returns (group, tail-group, rest). -/
def lazyScanF : Nat → List Char → List Char →
    Option (List Char × List Char × List Char)
  | 0, _, _ => none
  | f + 1, acc, l =>
    match (if acc.isEmpty then none else matchTail l) with
    | some (g3, rest) => some (acc.reverse, g3, rest)
    | none =>
      match l with
      | [] => none
      | c :: r => if c = '\'' then none else lazyScanF f (c :: acc) r

/-- The `https?://` prefix of `_TEXT_URL_RE` (greedy optional `s`). -/
def protoSplit : List Char → Option (List Char × List Char)
  | 'h' :: 't' :: 't' :: 'p' :: 's' :: ':' :: '/' :: '/' :: r =>
    some ("https://".data, r)
  | 'h' :: 't' :: 't' :: 'p' :: ':' :: '/' :: '/' :: r =>
    some ("http://".data, r)
  | _ => none

/-- One match attempt of `_TEXT_URL_RE` at the position right after its
boundary group `(^|\s|>)`: on success returns the replacement text for
groups 2-3 (`_link(r"\2", r"\2")` plus the third group, vk.py line 290)
together with the unscanned rest. -/
def tryMatch1 (l : List Char) : Option (List Char × List Char) :=
  match protoSplit l with
  | none => none
  | some (proto, r) =>
    match lazyScanF (r.length + 1) [] r with
    | none => none
    | some (u, g3, rest) =>
      let url := String.mk (proto ++ u)
      some ((_link url url).data ++ g3, rest)

/-- Last element of a character run is in `[a-z0-9]`. -/
def lastAlnum (run : List Char) : Bool :=
  match run.getLast? with
  | some d => alnumLower d
  | none => false

/-- The domain part `(?:[a-z0-9](?:[-a-z0-9]*[a-z0-9])?\.)+[a-z0-9](?:[-a-z0-9]*[a-z0-9])/`
of `_DOMAIN_ONLY_TEXT_URL_RE`.  Because `.` and `/` are outside the
`[-a-z0-9]` class, the greedy inner groups must consume a whole maximal
class run, which makes the backtracking search deterministic: each label
runs up to the next `.` (ending in an alphanumeric), and the final
two-or-more character label runs up to `/`.  Returns (consumed-including-slash,
rest). -/
def domainScanF : Nat → Bool → List Char → Option (List Char × List Char)
  | 0, _, _ => none
  | f + 1, hasLabel, l =>
    match l with
    | [] => none
    | c :: r =>
      if alnumLower c then
        let run := r.takeWhile (fun d => dashAlnumLower d)
        let rest := r.dropWhile (fun d => dashAlnumLower d)
        match rest with
        | '.' :: r2 =>
          if run = [] ∨ lastAlnum run then
            match domainScanF f true r2 with
            | some (dom, rest2) => some (c :: (run ++ '.' :: dom), rest2)
            | none => none
          else none
        | '/' :: r2 =>
          if hasLabel ∧ run ≠ [] ∧ lastAlnum run then
            some (c :: (run ++ ['/']), r2)
          else none
        | _ => none
      else none

/-- One match attempt of `_DOMAIN_ONLY_TEXT_URL_RE` after its boundary
group; the replacement is `_link("http://\2", "\2")` plus the third group
(vk.py line 291). -/
def tryMatch2 (l : List Char) : Option (List Char × List Char) :=
  match domainScanF (l.length + 1) false l with
  | none => none
  | some (dom, r) =>
    match lazyScanF (r.length + 1) [] r with
    | none => none
    | some (u, g3, rest) =>
      let g2 := String.mk (dom ++ u)
      some ((_link ("http://" ++ g2) g2).data ++ g3, rest)

/-- The `(?:id|club)` alternative of `_USER_LINK_RE`. -/
def prefixTok : List Char → Option (List Char × List Char)
  | 'i' :: 'd' :: r => some ("id".data, r)
  | 'c' :: 'l' :: 'u' :: 'b' :: r => some ("club".data, r)
  | _ => none

/-- One match attempt of `_USER_LINK_RE` (`\[((?:id|club)\d+)\|([^\]]+)\]`)
right after an opening `[`; the replacement is
`_em(_link(_vk_url(r"\1"), r"\2"))` (vk.py line 292). -/
def tryUser (r : List Char) : Option (List Char × List Char) :=
  match prefixTok r with
  | none => none
  | some (tok, r1) =>
    let ds := r1.takeWhile (fun c => c.isDigit)
    let r2 := r1.dropWhile (fun c => c.isDigit)
    if ds = [] then none
    else
      match r2 with
      | '|' :: r3 =>
        let lbl := r3.takeWhile (fun c => c ≠ ']')
        let r4 := r3.dropWhile (fun c => c ≠ ']')
        if lbl = [] then none
        else
          match r4 with
          | ']' :: r5 =>
            some ((_em (_link (_vk_url (String.mk (tok ++ ds)))
              (String.mk lbl))).data, r5)
          | _ => none
      | _ => none

/-- Fueled scanner for the first substitution pass (`_TEXT_URL_RE.sub`,
vk.py line 290): at every position try the boundary group `(^|\s|>)` and
then a URL match; on success emit the replacement and resume after the
match, otherwise move one character forward. -/
def pass1F : Nat → Bool → List Char → List Char
  | 0, _, l => l
  | f + 1, atStart, l =>
    match (if atStart then tryMatch1 l else none) with
    | some (rep, rest) => rep ++ pass1F f false rest
    | none =>
      match l with
      | [] => []
      | c :: r =>
        if isWsU c ∨ c = '>' then
          match tryMatch1 r with
          | some (rep, rest) => c :: (rep ++ pass1F f false rest)
          | none => c :: pass1F f false r
        else c :: pass1F f false r

/-- Fueled scanner for the second substitution pass
(`_DOMAIN_ONLY_TEXT_URL_RE.sub`, vk.py line 291). -/
def pass2F : Nat → Bool → List Char → List Char
  | 0, _, l => l
  | f + 1, atStart, l =>
    match (if atStart then tryMatch2 l else none) with
    | some (rep, rest) => rep ++ pass2F f false rest
    | none =>
      match l with
      | [] => []
      | c :: r =>
        if isWsU c ∨ c = '>' then
          match tryMatch2 r with
          | some (rep, rest) => c :: (rep ++ pass2F f false rest)
          | none => c :: pass2F f false r
        else c :: pass2F f false r

/-- Fueled scanner for the third substitution pass (`_USER_LINK_RE.sub`,
vk.py line 292); a match can only start at `[`. -/
def pass3F : Nat → List Char → List Char
  | 0, l => l
  | _ + 1, [] => []
  | f + 1, c :: r =>
    if c = '[' then
      match tryUser r with
      | some (rep, rest) => rep ++ pass3F f rest
      | none => '[' :: pass3F f r
    else c :: pass3F f r

/-- `_parse_text` (vk.py lines 287-294): the three substitution passes in
source order followed by `str.strip()`. -/
def _parse_text (html : String) : String :=
  let l1 := pass1F (html.data.length + 1) true html.data
  let l2 := pass2F (l1.length + 1) true l1
  let l3 := pass3F (l2.length + 1) l2
  String.mk (stripChars l3)

/- ----------------------------------------------------------------------
Data model: upstream dictionaries as structures of optional fields.
---------------------------------------------------------------------- -/

/-- A resolved actor (value of the `users` map of `_get_users`). -/
structure UserInfo where
  id : Int
  name : String
  photo : String
deriving DecidableEq

/-- A record of the `profiles` list of the API response. -/
structure ApiProfile where
  uid : Int
  first_name : String
  last_name : String
  photo : String
deriving DecidableEq

/-- A record of the `groups` list of the API response. -/
structure ApiGroup where
  gid : Int
  name : String
  photo : String
deriving DecidableEq

/-- The user map of `_get_users`: a Python dict keyed by signed id,
modelled as an association list in reverse insertion order so that
`List.lookup` (first match wins) agrees with the dict's
last-assignment-wins. -/
abbrev Users := List (Int × UserInfo)

/-- `_get_users` (vk.py lines 149-168). -/
def _get_users (profiles : List ApiProfile) (groups : List ApiGroup) : Users :=
  (groups.map (fun g => (-g.gid, UserInfo.mk (-g.gid) g.name g.photo))).reverse ++
  (profiles.map (fun p =>
    (p.uid, UserInfo.mk p.uid (p.first_name ++ " " ++ p.last_name) p.photo))).reverse

/-- An entry of a `friend` item's `friends` list (positions 1 and later). -/
structure FriendEntry where
  uid : Int
deriving DecidableEq

/-- An entry of a `note` item's `notes` list (positions 1 and later). -/
structure NoteEntry where
  owner_id : Int
  nid : Int
  title : String
deriving DecidableEq

/-- An entry of a `photo`/`photo_tag` item's photo list (positions 1 and
later). -/
structure PhotoEntry where
  owner_id : Int
  pid : Int
  src_big : String
deriving DecidableEq

/-- The payload dictionary of an attachment
(`attachment[attachment["type"]]`): every key that `_post_item` may read,
each optional because the upstream shape is not guaranteed. -/
structure AttPayload where
  app_id : Option Int := none
  gid : Option Int := none
  owner_id : Option Int := none
  pid : Option Int := none
  aid : Option Int := none
  nid : Option Int := none
  src : Option String := none
  src_big : Option String := none
  url : Option String := none
  title : Option String := none
  description : Option String := none
  image_src : Option String := none
  thumb_src : Option String := none
  thumb : Option String := none
  size : Option Int := none
  performer : Option String := none
  duration : Option Int := none
  image : Option String := none
  question : Option String := none
deriving DecidableEq

/-- A post attachment: its `type` discriminator and its payload. -/
structure Attachment where
  atype : String
  payload : AttPayload
deriving DecidableEq

/-- A raw activity item of the `items` list of the API response: a Python
dict, every key optional.  The `[count, entries...]` positional convention
of the `friends`/`notes`/photo lists is modelled as a pair of the declared
count (position 0) and the entry records (the remaining positions); `geo`
is modelled by presence only (the code only tests `"geo" in item`). -/
structure ApiItem where
  source_id : Option Int := none
  type_ : Option String := none
  date : Option Int := none
  text : Option String := none
  attachments : Option (List Attachment) := none
  attachment : Option Attachment := none
  geo : Bool := false
  copy_owner_id : Option Int := none
  copy_post_id : Option Int := none
  copy_text : Option String := none
  post_id : Option Int := none
  friends : Option (Int × List FriendEntry) := none
  notes : Option (Int × List NoteEntry) := none
  photos : Option (Int × List PhotoEntry) := none
  photo_tags : Option (Int × List PhotoEntry) := none
deriving DecidableEq

/-- A canonical feed item as assembled by `_get_newsfeed`; keys that a
normalizer may leave unset are optional. -/
structure FeedItem where
  title : String := ""
  text : String := ""
  url : Option String := none
  author : Option String := none
  categories : Option (List String) := none
  id : Option String := none
  time : Option Int := none
deriving DecidableEq

/- ----------------------------------------------------------------------
Rendering helpers of vk.py.
---------------------------------------------------------------------- -/

/-- Python `str.strip()` on strings. -/
def stripStr (s : String) : String := String.mk (stripChars s.data)

/-- UTF-8 encoding of one character (byte values). -/
def utf8Bytes (c : Char) : List Nat :=
  let n := c.toNat
  if n < 128 then [n]
  else if n < 2048 then [192 + n / 64, 128 + n % 64]
  else if n < 65536 then [224 + n / 4096, 128 + (n / 64) % 64, 128 + n % 64]
  else [240 + n / 262144, 128 + (n / 4096) % 64, 128 + (n / 64) % 64, 128 + n % 64]

/-- Upper-case hexadecimal digit. -/
def hexDigitU (n : Nat) : Char := "0123456789ABCDEF".data.getD n '0'

/-- Percent-encoding of one byte, upper-case as `urllib.parse.quote`. -/
def pctByte (b : Nat) : List Char := ['%', hexDigitU (b / 16), hexDigitU (b % 16)]

/-- `urllib.parse.quote_plus` on one character: unreserved characters kept,
space becomes `+`, everything else percent-encoded bytewise. -/
def quotePlusChar (c : Char) : List Char :=
  if ('a' ≤ c ∧ c ≤ 'z') ∨ ('A' ≤ c ∧ c ≤ 'Z') ∨ ('0' ≤ c ∧ c ≤ '9') ∨
      c = '_' ∨ c = '.' ∨ c = '-' ∨ c = '~' then [c]
  else if c = ' ' then ['+']
  else (utf8Bytes c).flatMap pctByte

/-- `urllib.parse.quote_plus`. -/
def quotePlus (s : String) : String := String.mk (s.data.flatMap quotePlusChar)

/-- `urllib.parse.urlencode` on an ordered association list (Python dicts
preserve insertion order). -/
def urlencodePairs (ps : List (String × String)) : String :=
  String.intercalate "&" (ps.map (fun p => quotePlus p.1 ++ "=" ++ quotePlus p.2))

/-- Two-digit zero padding (`"{:02d}".format`). -/
def pad2 (n : Int) : String :=
  if 0 ≤ n ∧ n < 10 then "0" ++ toString n else toString n

/-- `_duration` (vk.py lines 205-215); Python `//` and `%` are floor
division and modulo, hence `Int.fdiv`/`Int.fmod`. -/
def _duration (seconds : Int) : String :=
  let hours := (seconds.fdiv 60).fdiv 60
  let minutes := (seconds.fdiv 60).fmod 60
  let secs := seconds.fmod 60
  if hours ≠ 0 then pad2 hours ++ ":" ++ pad2 minutes ++ ":" ++ pad2 secs
  else pad2 minutes ++ ":" ++ pad2 secs

/-- `_photo` (vk.py lines 218-223). -/
def _photo (info : AttPayload) (big : Bool) : Except String String := do
  let owner ← getOpt info.owner_id "owner_id"
  let pid ← getOpt info.pid "pid"
  let src ← getOpt (if big then info.src_big else info.src)
    (if big then "src_big" else "src")
  pure (_block (_vk_link (_vk_id "photo" owner (some pid)) (_image src)))

/- ----------------------------------------------------------------------
`_post_item` (vk.py lines 334-511).
---------------------------------------------------------------------- -/

/-- The fixed attachment priority order (vk.py lines 337-350). -/
def attachment_order : List String :=
  ["doc", "note", "page", "poll", "album", "posted_photo", "photo",
   "graffiti", "app", "video", "link", "audio"]

/-- Index of a string in a list, length when absent (`tuple.index` with the
`ValueError` handler of `attachment_sort_key`, vk.py lines 352-356). -/
def indexOfD (s : String) : List String → Nat
  | [] => 0
  | x :: r => if x = s then 0 else 1 + indexOfD s r

/-- `attachment_sort_key` (vk.py lines 352-356). -/
def attachment_sort_key (a : Attachment) : Nat :=
  indexOfD a.atype attachment_order

/-- Stable insertion: an element is placed before later elements with an
equal key (Python's `sorted` is stable). -/
def insertByKey (key : α → Nat) (x : α) : List α → List α
  | [] => [x]
  | y :: ys => if key x ≤ key y then x :: y :: ys else y :: insertByKey key x ys

/-- Stable sort by key (the unique stable ascending permutation, the same
list as Python's `sorted(..., key=...)`). -/
def sortByKey (key : α → Nat) : List α → List α
  | [] => []
  | x :: xs => insertByKey key x (sortByKey key xs)

/-- The mutable state of the attachment loop of `_post_item`. -/
structure PState where
  top_html : String
  bottom_html : String
  categories : List String
  unknown_attachments : List String
deriving DecidableEq

/-- `photo_count` (vk.py lines 378-381): the `functools.reduce` counting
photo-bearing attachments over the whole attachment list. -/
def photo_count (attachments : List Attachment) : Nat :=
  attachments.foldl (fun count a =>
    count + (if a.atype = "app" ∨ a.atype = "graffiti" ∨ a.atype = "photo" ∨
      a.atype = "posted_photo" then 1 else 0)) 0

/-- The branch chain of the attachment loop of `_post_item` (vk.py lines
384-481), producing the updated state and the (possibly re-tagged)
attachment category. -/
def attachRender (_users : Users) (big_image : Bool) (st : PState)
    (a : Attachment) : Except String (PState × String) := do
  if a.atype = "app" then do
    let app_id ← getOpt a.payload.app_id "app_id"
    let src ← getOpt (if big_image then a.payload.src_big else a.payload.src)
      (if big_image then "src_big" else "src")
    let frag := _block (_vk_link (_vk_id "app" app_id none) (_image src))
    pure ({ st with top_html := st.top_html ++ frag }, a.atype)
  else if a.atype = "graffiti" then do
    let gid ← getOpt a.payload.gid "gid"
    let src ← getOpt (if big_image then a.payload.src_big else a.payload.src)
      (if big_image then "src_big" else "src")
    let frag := _block (_vk_link (_vk_id "graffiti" gid none) (_image src))
    pure ({ st with top_html := st.top_html ++ frag }, a.atype)
  else if a.atype = "link" then do
    let url ← getOpt a.payload.url "url"
    let title ← getOpt a.payload.title "title"
    let descr ← getOpt a.payload.description "description"
    let link_block := _em ("Ссылка: " ++ _link url title)
    let parsed := _parse_text descr
    let link_description := if parsed = "" then title else parsed
    let link_block :=
      match a.payload.image_src with
      | some img =>
        if link_description ≠ "" then
          link_block ++ _image_block url img link_description
        else link_block ++ _block (_link url (_image img))
      | none =>
        if link_description ≠ "" then link_block ++ _block link_description
        else link_block
    pure ({ st with top_html := st.top_html ++ _block link_block }, a.atype)
  else if a.atype = "album" then do
    let owner ← getOpt a.payload.owner_id "owner_id"
    let aid ← getOpt a.payload.aid "aid"
    let thumb_src ← getOpt a.payload.thumb_src "thumb.src"
    let descr ← getOpt a.payload.description "description"
    let size ← getOpt a.payload.size "size"
    let frag := _image_block (_vk_url_id "album" owner (some aid)) thumb_src
      ("Альбом: " ++ stripStr descr ++ " (" ++ toString size ++ " фото)")
    pure ({ st with top_html := st.top_html ++ frag }, a.atype)
  else if a.atype = "photo" then do
    let frag ← _photo a.payload big_image
    pure ({ st with top_html := st.top_html ++ frag }, "posted_photo")
  else if a.atype = "posted_photo" then do
    let frag ← _photo a.payload big_image
    pure ({ st with top_html := st.top_html ++ frag }, a.atype)
  else if a.atype = "photos_list" then
    pure (st, "posted_photo")
  else if a.atype = "audio" then do
    let performer ← getOpt a.payload.performer "performer"
    let title ← getOpt a.payload.title "title"
    let dur ← getOpt a.payload.duration "duration"
    let frag := _block (_em ("Аудиозапись: " ++ _vk_link
      ("search?" ++ urlencodePairs
        [("c[q]", performer ++ " - " ++ title), ("c[section]", "audio")])
      (performer ++ " - " ++ title ++ " (" ++ _duration dur ++ ")")))
    pure ({ st with bottom_html := st.bottom_html ++ frag }, a.atype)
  else if a.atype = "doc" then
    match a.payload.url, a.payload.thumb with
    | some url, some thumb => do
      let title ← getOpt a.payload.title "title"
      let frag := _block (_image_block url thumb (_link url title))
      pure ({ st with bottom_html := st.bottom_html ++ frag }, a.atype)
    | _, _ => do
      let title ← getOpt a.payload.title "title"
      let frag := _block (_em ("Документ: " ++ title))
      pure ({ st with bottom_html := st.bottom_html ++ frag }, a.atype)
  else if a.atype = "video" then do
    let image ← getOpt a.payload.image "image"
    let title ← getOpt a.payload.title "title"
    let dur ← getOpt a.payload.duration "duration"
    let frag := _block
      (_image image ++ _block (_em (title ++ " (" ++ _duration dur ++ ")")))
    pure ({ st with top_html := st.top_html ++ frag }, a.atype)
  else if a.atype = "note" then do
    let title ← getOpt a.payload.title "title"
    let frag := _block (_em ("Заметка: " ++ title))
    pure ({ st with top_html := st.top_html ++ frag }, a.atype)
  else if a.atype = "page" then do
    let title ← getOpt a.payload.title "title"
    let frag := _block (_em ("Страница: " ++ title))
    pure ({ st with top_html := st.top_html ++ frag }, a.atype)
  else if a.atype = "poll" then do
    let question ← getOpt a.payload.question "question"
    let frag := _block (_em ("Опрос: " ++ question))
    pure ({ st with top_html := st.top_html ++ frag }, a.atype)
  else
    let unk := insertCat st.unknown_attachments a.atype
    pure ({ st with unknown_attachments := unk }, a.atype)

/-- One iteration of the attachment loop: the branch chain followed by the
unconditional `categories.add(_CATEGORY_TYPE + attachment_category)`
(vk.py line 483). -/
def attachLoopBody (users : Users) (big_image : Bool) (st : PState)
    (a : Attachment) : Except String PState := do
  let (st1, cat) ← attachRender users big_image st a
  pure { st1 with categories := insertCat st1.categories ("type/" ++ cat) }

/-- `_post_item` (vk.py lines 334-511). -/
def _post_item (users : Users) (user : UserInfo) (item : ApiItem) :
    Except String (Option FeedItem) := do
  let attachments := sortByKey attachment_sort_key (item.attachments.getD [])
  let text ← getOpt item.text "text"
  if text = "" ∧ attachments = [] ∧ item.geo then do
    let _ ← getOpt item.date "date"
    pure none
  else do
    let main_html :=
      match item.attachment with
      | some att => if att.payload.title = some text then "" else _parse_text text
      | none => _parse_text text
    let big_image := photo_count attachments == 1
    let st ← attachments.foldlM
      (fun s a => attachLoopBody users big_image s a)
      (PState.mk "" "" [] [])
    let html := st.top_html ++ main_html ++ st.bottom_html
    let hc ←
      match item.copy_owner_id, item.copy_post_id with
      | some co, some _ => do
        let cu ← getOpt (List.lookup co users) "copy owner"
        let html1 := _block (_em (_link (_get_user_url co) cu.name) ++ " пишет:") ++ html
        let html2 :=
          match item.copy_text with
          | some ct => _quote_block ct html1
          | none => html1
        pure (html2, insertCat st.categories "type/repost")
      | _, _ => pure (html, st.categories)
    let post_id ← getOpt item.post_id "post_id"
    let out : FeedItem := {
      title := user.name ++ ": запись на стене",
      text := hc.1,
      url := some (_vk_url_id "wall" user.id (some post_id)),
      categories := some hc.2 }
    pure (some out)

/- ----------------------------------------------------------------------
`_friend_item`, `_note_item`, `_photo_item` (vk.py lines 236-331).
---------------------------------------------------------------------- -/

/-- `_friend_item` (vk.py lines 236-264). -/
def _friend_item (users : Users) (user : UserInfo) (item : ApiItem) :
    Except String (Option FeedItem) := do
  match item.friends with
  | none => pure none
  | some fr => do
    let rows ← fr.2.mapM (fun f => do
      let u ← getOpt (List.lookup f.uid users) "friend uid"
      let friend_url := _get_user_url u.id
      pure [_link friend_url (_image u.photo), _link friend_url u.name])
    let html := _table rows 7
    let html :=
      if fr.1 > (fr.2.length : Int) then
        html ++ _block "[показаны не все новые друзья]"
      else html
    let out : FeedItem := {
      title := user.name ++ ": новые друзья",
      text := html,
      url := some (_vk_url ("friends?id=" ++ toString user.id ++ "&section=all")) }
    pure (some out)

/-- `_note_item` (vk.py lines 267-284). -/
def _note_item (_users : Users) (user : UserInfo) (item : ApiItem) :
    Except String (Option FeedItem) := do
  let nt ← getOpt item.notes "notes"
  let html := String.join (nt.2.map (fun note =>
    _block (_em ("Заметка: " ++
      _vk_link (_vk_id "note" note.owner_id (some note.nid)) note.title))))
  let html :=
    if nt.1 > (nt.2.length : Int) then html ++ _block "[показаны не все заметки]"
    else html
  let first ← getIdx nt.2 0
  let out : FeedItem := {
    title := user.name ++ ": заметка",
    text := html,
    url := some (_vk_url_id "note" first.owner_id (some first.nid)) }
  pure (some out)

/-- The per-photo feed URL of `_photo_item` (vk.py lines 303-314). -/
def photoUrl (withSection : Bool) (feedTag : String) (sid : Int) (date : Int)
    (photo : PhotoEntry) : String :=
  _vk_url ("feed?" ++ urlencodePairs (
    (if withSection then [("section", "photos")] else []) ++
    [("z", "photo" ++ toString photo.owner_id ++ "_" ++ toString photo.pid ++
      "/" ++ feedTag ++ "_" ++ toString sid ++ "_" ++ toString date)]))

/-- `_photo_item` (vk.py lines 297-331). -/
def _photo_item (_users : Users) (user : UserInfo) (api_item : ApiItem) :
    Except String (Option FeedItem) := do
  let ty ← getOpt api_item.type_ "type"
  let conf ←
    if ty = "photo" then do
      let p ← getOpt api_item.photos "photos"
      pure (("новые фотографии", p), (true, "feed1"))
    else if ty = "photo_tag" then do
      let p ← getOpt api_item.photo_tags "photo_tags"
      pure (("новые отметки на фотографиях", p), (false, "feed3"))
    else Except.error "Logical error."
  let declared := conf.1.2.1
  let entries := conf.1.2.2
  let res ← entries.foldlM (fun (acc : String × Option String) photo => do
    let sid ← getOpt api_item.source_id "source_id"
    let date ← getOpt api_item.date "date"
    let url := photoUrl conf.2.1 conf.2.2 sid date photo
    pure (acc.1 ++ _block (_link url (_image photo.src_big)),
      some (acc.2.getD url))) (("", none) : String × Option String)
  let text :=
    if declared > (entries.length : Int) then
      res.1 ++ _block "[показаны не все фотографии]"
    else res.1
  let out : FeedItem := {
    title := user.name ++ ": " ++ conf.1.1,
    text := text,
    url := res.2 }
  pure (some out)

/- ----------------------------------------------------------------------
`_get_newsfeed` (vk.py lines 81-146).
---------------------------------------------------------------------- -/

/-- The body of the inner `try` of the item loop (vk.py lines 96-121):
actor resolution, dispatch on the raw discriminator, then author/avatar
and category assignment. -/
def innerTry (users : Users) (api_item : ApiItem) :
    Except String (Option FeedItem) := do
  let sid ← getOpt api_item.source_id "source_id"
  let user ← getOpt (List.lookup sid users) "user"
  let ty ← getOpt api_item.type_ "type"
  let itemOpt ←
    if ty = "post" then _post_item users user api_item
    else if ty = "photo" ∨ ty = "photo_tag" then _photo_item users user api_item
    else if ty = "wall_photo" then pure none
    else if ty = "friend" then _friend_item users user api_item
    else if ty = "note" then _note_item users user api_item
    else Except.error "Unknown news item type."
  match itemOpt with
  | none => pure none
  | some item0 => do
    let item1 : FeedItem := {
      item0 with
      author := some user.name,
      text := _image_block (_get_user_url user.id) user.photo item0.text }
    let cats := insertCat (insertCat (item1.categories.getD []) ("type/" ++ ty))
      ((if user.id < 0 then "source/group/" else "source/user/") ++
        _get_profile_name user.id)
    pure (some { item1 with categories := some cats })

/-- The fixed localized fallback item substituted when processing one feed
item raises (vk.py lines 126-129); it carries no categories. -/
def fallbackItem : FeedItem :=
  { title := "Внутренняя ошибка сервера",
    text := "При обработке новости произошла внутренняя ошибка сервера" }

/-- One iteration of the item loop of `_get_newsfeed` (vk.py lines
94-135): the inner `try` recovered into the fallback item, the skip
(`continue`) path, then the id/time assignment (lines 131-133), which is
outside the inner handler. -/
def loopBody (users : Users) (acc : List FeedItem) (api_item : ApiItem) :
    Except String (List FeedItem) :=
  let step : Option FeedItem :=
    match innerTry users api_item with
    | Except.ok o => o
    | Except.error _ => some fallbackItem
  match step with
  | none => Except.ok acc
  | some item => do
    let sid ← getOpt api_item.source_id "source_id"
    let ty ← getOpt api_item.type_ "type"
    let date ← getOpt api_item.date "date"
    Except.ok (acc ++ [{ item with
      id := some (_get_profile_name sid ++ "/" ++ ty ++ "/" ++ toString date),
      time := some date }])

/-- The item loop of `_get_newsfeed` over the raw `items` list. -/
def newsfeedItems (users : Users) (items : List ApiItem) :
    Except String (List FeedItem) :=
  items.foldlM (fun acc a => loopBody users acc a) []

/-- The API response consumed by `_get_newsfeed`. -/
structure ApiResponse where
  profiles : List ApiProfile
  groups : List ApiGroup
  items : List ApiItem
deriving DecidableEq

/-- The assembled feed. -/
structure Feed where
  title : String
  url : String
  image : String
  description : String
  items : List FeedItem
deriving DecidableEq

/-- `_get_newsfeed` (vk.py lines 81-146) on an already-fetched response:
the outer `try` re-raises, so it is the identity on errors. -/
def _get_newsfeed (response : ApiResponse) : Except String Feed := do
  let users := _get_users response.profiles response.groups
  let items ← newsfeedItems users response.items
  let feed : Feed := {
    title := "ВКонтакте: Новости",
    url := _vk_url "",
    image := _vk_url "press/Simple.png",
    description := "Новостная лента ВКонтакте",
    items := items }
  pure feed

/- ----------------------------------------------------------------------
Spec-side definitions used by the theorem statements.
---------------------------------------------------------------------- -/

/-- The id/time assignment of `_get_newsfeed` (vk.py lines 131-133) as a
total function, for items whose `source_id`/`type`/`date` are present. -/
def assignId (api_item : ApiItem) (item : FeedItem) : FeedItem :=
  { item with
    id := some (_get_profile_name (api_item.source_id.getD 0) ++ "/" ++
      api_item.type_.getD "" ++ "/" ++ toString (api_item.date.getD 0)),
    time := some (api_item.date.getD 0) }

/-- What the assembler emits for one raw item carrying `source_id`, `type`
and `date`: nothing for a skip, the normalized item on success, the
fallback error item when normalization raises. -/
def emitOne (users : Users) (a : ApiItem) : Option FeedItem :=
  match innerTry users a with
  | Except.ok none => none
  | Except.ok (some it) => some (assignId a it)
  | Except.error _ => some (assignId a fallbackItem)

/-- A one-profile user map for concrete witnesses. -/
def demoUsers : Users := [(1, UserInfo.mk 1 "Ann Lee" "P1")]

/-- A `link` attachment with the given url, title, description and
optional image preview. -/
def linkAtt (url title descr : String) (img : Option String) : Attachment :=
  Attachment.mk "link"
    { url := some url, title := some title, description := some descr,
      image_src := img }

/-- The text shown for a link attachment: the markup-parsed description,
falling back to the link title when the parsed description is empty
(Python `_parse_text(info["description"]) or info["title"]`). -/
def linkCaption (title descr : String) : String :=
  if _parse_text descr = "" then title else _parse_text descr

/-- The HTML fragment `_post_item` builds for one `link` attachment. -/
def linkFrag (url title descr : String) (img : Option String) : String :=
  let link_block := _em ("Ссылка: " ++ _link url title)
  match img with
  | some i =>
    if linkCaption title descr ≠ "" then
      link_block ++ _image_block url i (linkCaption title descr)
    else link_block ++ _block (_link url (_image i))
  | none =>
    if linkCaption title descr ≠ "" then
      link_block ++ _block (linkCaption title descr)
    else link_block

/-- A raw item with no `date` field that the normalizer skips
(`wall_photo`): the build succeeds on it. -/
def noDateItem : ApiItem := { source_id := some 1, type_ := some "wall_photo" }

/-- A raw item with no `source_id` field. -/
def noSidItem : ApiItem := { type_ := some "post" }

/-- Concatenation of a list of HTML fragments. -/
def concatS (l : List String) : String := l.foldr (fun a b => a ++ b) ""

/-- A post attachment of one of the single-fragment kinds of the
attachment loop, described by its payload data: the four photo-bearing
kinds of the `photo_count` reduction (`app`, `graffiti`, `photo`,
`posted_photo`, vk.py lines 389-401 and 426-431) and the photo-free
kinds `note`, `page` and `poll` (vk.py lines 465-476). -/
inductive SimpleAtt where
  | app (app_id : Int) (src srcBig : String)
  | graffiti (gid : Int) (src srcBig : String)
  | photo (owner pid : Int) (src srcBig : String)
  | posted_photo (owner pid : Int) (src srcBig : String)
  | note (title : String)
  | page (title : String)
  | poll (question : String)
deriving DecidableEq

/-- The raw `Attachment` record a `SimpleAtt` stands for. -/
def toAtt : SimpleAtt → Attachment
  | .app i s b =>
    Attachment.mk "app" { app_id := some i, src := some s, src_big := some b }
  | .graffiti g s b =>
    Attachment.mk "graffiti" { gid := some g, src := some s, src_big := some b }
  | .photo o p s b =>
    Attachment.mk "photo"
      { owner_id := some o, pid := some p, src := some s, src_big := some b }
  | .posted_photo o p s b =>
    Attachment.mk "posted_photo"
      { owner_id := some o, pid := some p, src := some s, src_big := some b }
  | .note t => Attachment.mk "note" { title := some t }
  | .page t => Attachment.mk "page" { title := some t }
  | .poll q => Attachment.mk "poll" { question := some q }

/-- Membership in `("app", "graffiti", "photo", "posted_photo")`, the
photo-bearing test of the `photo_count` reduction (vk.py lines 378-381). -/
def isPhotoBearing : SimpleAtt → Bool
  | .app _ _ _ => true
  | .graffiti _ _ _ => true
  | .photo _ _ _ _ => true
  | .posted_photo _ _ _ _ => true
  | .note _ => false
  | .page _ => false
  | .poll _ => false

/-- Number of photo-bearing attachments in the list, in the
`functools.reduce` shape of vk.py lines 378-381. -/
def pbCount (l : List SimpleAtt) : Nat :=
  l.foldl (fun c a => c + (if isPhotoBearing a then 1 else 0)) 0

/-- The category tag the loop iteration records for the attachment
(vk.py lines 385, 428, 483): `photo` is re-tagged `posted_photo`. -/
def catOf : SimpleAtt → String
  | .app _ _ _ => "app"
  | .graffiti _ _ _ => "graffiti"
  | .photo _ _ _ _ => "posted_photo"
  | .posted_photo _ _ _ _ => "posted_photo"
  | .note _ => "note"
  | .page _ => "page"
  | .poll _ => "poll"

/-- The fragment the attachment loop appends to `top_html` for a simple
attachment: each photo-bearing kind embeds the `src_big` image variant
exactly when `big` holds, and `src` otherwise (vk.py lines 389-401,
426-431 and `_photo`, lines 218-223); the photo-free kinds carry no
image. -/
def simpleFragment (big : Bool) : SimpleAtt → String
  | .app i s b =>
    _block (_vk_link (_vk_id "app" i none) (_image (if big then b else s)))
  | .graffiti g s b =>
    _block (_vk_link (_vk_id "graffiti" g none) (_image (if big then b else s)))
  | .photo o p s b =>
    _block (_vk_link (_vk_id "photo" o (some p)) (_image (if big then b else s)))
  | .posted_photo o p s b =>
    _block (_vk_link (_vk_id "photo" o (some p)) (_image (if big then b else s)))
  | .note t => _block (_em ("Заметка: " ++ t))
  | .page t => _block (_em ("Страница: " ++ t))
  | .poll q => _block (_em ("Опрос: " ++ q))

/-- The canonical item `_post_item` produces for a post carrying a mixed
list of simple attachments: every fragment renders with the post-wide
large flag `pbCount l == 1`, the count of photo-bearing attachments over
the whole attachment list. -/
def mixedPostResult (user : UserInfo) (l : List SimpleAtt) (t : String)
    (pid : Int) : FeedItem where
  title := user.name ++ ": запись на стене"
  text := concatS (l.map (simpleFragment (pbCount l == 1))) ++ _parse_text t
  url := some (_vk_url_id "wall" user.id (some pid))
  categories := some (l.foldl (fun c a => insertCat c ("type/" ++ catOf a)) [])

/-- A concrete raw post carrying the given simple attachments. -/
def mixedPostItem (l : List SimpleAtt) : ApiItem :=
  { source_id := some 1, type_ := some "post", date := some 9,
    text := some "hi", post_id := some 3,
    attachments := some (l.map toAtt) }

/-- A check-in-only raw post: empty text, no attachments, geolocation. -/
def checkinPost : ApiItem :=
  { source_id := some 1, type_ := some "post", date := some 9,
    text := some "", geo := true }

/-- A raw `note` item whose `notes` list holds only the declared count. -/
def noteCountOnly (sid c d : Int) : ApiItem :=
  { source_id := some sid, type_ := some "note", date := some d,
    notes := some (c, []) }

/-- The fallback item with the id/time that the assembler assigns. -/
def fallbackWithId (sid : Int) (ty : String) (d : Int) : FeedItem :=
  { fallbackItem with
    id := some (_get_profile_name sid ++ "/" ++ ty ++ "/" ++ toString d),
    time := some d }

/-- A concrete raw item list for witnesses: an unknown discriminator (the
fallback path), a skipped `wall_photo`, and a normal `friend` item. -/
def demoItems : List ApiItem :=
  [{ source_id := some 1, type_ := some "weird", date := some 6 },
   { source_id := some 1, type_ := some "wall_photo", date := some 5 },
   { source_id := some 1, type_ := some "friend", date := some 7,
     friends := some (1, [FriendEntry.mk 1]) }]

/-- No position of `l` starts a `>\s+<` match of the compaction regex. -/
def noMatchC : List Char → Bool
  | [] => true
  | c :: r =>
    if c = '>' ∧ r.takeWhile (fun d => isWsC d) ≠ [] ∧
        (r.dropWhile (fun d => isWsC d)).head? = some '<' then false
    else noMatchC r

/-- No scan position of the second substitution pass can match: the
leading-position attempt (when `atStart`) fails, and at every boundary
character (`\s` or `>`) the domain-URL match attempt on the rest fails. -/
def pass2NoMatch : Bool → List Char → Prop
  | atStart, l =>
    (atStart = true → tryMatch2 l = none) ∧
    match l with
    | [] => True
    | c :: r =>
      ((isWsU c ∨ c = '>') → tryMatch2 r = none) ∧ pass2NoMatch false r

/-- The text produced by the first substitution pass on
`"see http://" ++ U ++ "."`: only the URL is wrapped in the anchor, the
label equals the URL, and the trailing period stays outside. -/
def c8Out (U : List Char) : List Char :=
  "see <a href='http://".data ++
    (U ++ ("'>http://".data ++ (U ++ "</a>.".data)))

/-- The character `[` does not occur in the string.  VK HTML-escapes all
user data (vk.py line 3), and the `[not all shown]` notice texts are the
only square-bracket strings the renderer itself produces, so this is the
invariant under which notice occurrences are counted. -/
abbrev noBracket (s : String) : Prop := ∀ c ∈ s.data, c ≠ '['

/-- The friend-table row built by `_friend_item` for one friend entry
(vk.py lines 245-251). -/
def friendRow (users : Users) (f : FriendEntry) : Except String (List String) := do
  let u ← getOpt (List.lookup f.uid users) "friend uid"
  let friend_url := _get_user_url u.id
  pure [_link friend_url (_image u.photo), _link friend_url u.name]

/-- The feed item assembled by `_friend_item` once the rows are resolved
(vk.py lines 253-261): the table body plus the conditional
`[показаны не все новые друзья]` notice. -/
def friendOut (user : UserInfo) (n : Int) (len : Nat)
    (rows : List (List String)) : FeedItem where
  title := user.name ++ ": новые друзья"
  text :=
    if n > (len : Int) then
      _table rows 7 ++ _block "[показаны не все новые друзья]"
    else _table rows 7
  url := some (_vk_url ("friends?id=" ++ toString user.id ++ "&section=all"))

/-- The feed item assembled by `_note_item` once the first entry is
resolved (vk.py lines 269-283): the note blocks plus the conditional
`[показаны не все заметки]` notice. -/
def noteOut (user : UserInfo) (n : Int) (nl : List NoteEntry)
    (first : NoteEntry) : FeedItem where
  title := user.name ++ ": заметка"
  text :=
    if n > (nl.length : Int) then
      String.join (nl.map (fun note =>
        _block (_em ("Заметка: " ++
          _vk_link (_vk_id "note" note.owner_id (some note.nid)) note.title)))) ++
        _block "[показаны не все заметки]"
    else
      String.join (nl.map (fun note =>
        _block (_em ("Заметка: " ++
          _vk_link (_vk_id "note" note.owner_id (some note.nid)) note.title))))
  url := some (_vk_url_id "note" first.owner_id (some first.nid))

/- ----------------------------------------------------------------------
General lemmas about the `Except` embedding.
---------------------------------------------------------------------- -/

theorem except_bind_ok {α β : Type} {x : Except String α}
    {f : α → Except String β} {b : β} :
    x >>= f = Except.ok b ↔ ∃ a, x = Except.ok a ∧ f a = Except.ok b := by
  cases x with
  | error e => simp [Bind.bind, Except.bind]
  | ok a => simp [Bind.bind, Except.bind]

theorem except_bind_error {α β : Type} {x : Except String α}
    {f : α → Except String β} {e : String} (h : x = Except.error e) :
    x >>= f = Except.error e := by
  subst h; rfl

theorem getOpt_ok_iff {α : Type} {o : Option α} {k : String} {a : α} :
    getOpt o k = Except.ok a ↔ o = some a := by
  cases o <;> simp [getOpt]

theorem getOpt_some {α : Type} (a : α) (k : String) :
    getOpt (some a) k = Except.ok a := rfl

theorem except_ok_bind {α β : Type} (a : α) (f : α → Except String β) :
    (Except.ok a >>= f) = f a := rfl

theorem getOpt_none {α : Type} (k : String) :
    getOpt (none : Option α) k = Except.error ("KeyError: " ++ k) := rfl

/- ----------------------------------------------------------------------
The assembler loop: shape of one iteration.
---------------------------------------------------------------------- -/

theorem loopBody_eq (users : Users) (acc : List FeedItem) (a : ApiItem)
    (s : Int) (t : String) (d : Int)
    (hs : a.source_id = some s) (ht : a.type_ = some t) (hd : a.date = some d) :
    loopBody users acc a = Except.ok (acc ++ (emitOne users a).toList) := by
  unfold loopBody emitOne
  cases h : innerTry users a with
  | error e =>
    simp [h, hs, ht, hd, getOpt, assignId, Bind.bind, Except.bind]
  | ok o =>
    cases o with
    | none => simp [h]
    | some it =>
      simp [h, hs, ht, hd, getOpt, assignId, Bind.bind, Except.bind]

theorem newsfeedAux_eq (users : Users) :
    ∀ (l : List ApiItem) (acc : List FeedItem),
      (∀ a ∈ l, a.source_id.isSome ∧ a.type_.isSome ∧ a.date.isSome) →
      l.foldlM (fun acc a => loopBody users acc a) acc =
        Except.ok (acc ++ l.filterMap (emitOne users)) := by
  intro l
  induction l with
  | nil =>
    intro acc _
    show pure acc = Except.ok (acc ++ [])
    rw [List.append_nil]
    rfl
  | cons a l ih =>
    intro acc h
    have ha := h a (List.mem_cons_self a l)
    obtain ⟨s, hs⟩ := Option.isSome_iff_exists.mp ha.1
    obtain ⟨t, ht⟩ := Option.isSome_iff_exists.mp ha.2.1
    obtain ⟨d, hd⟩ := Option.isSome_iff_exists.mp ha.2.2
    have hl : ∀ b ∈ l, b.source_id.isSome ∧ b.type_.isSome ∧ b.date.isSome :=
      fun b hb => h b (List.mem_cons_of_mem a hb)
    simp only [List.foldlM, loopBody_eq users acc a s t d hs ht hd,
      Bind.bind, Except.bind]
    rw [ih _ hl]
    cases he : emitOne users a <;>
      simp [he, List.filterMap_cons, List.append_assoc]

/-- C1: for every upstream response whose raw items all carry `source_id`,
`type` and `date`, the item loop never aborts: it returns exactly one
emitted item per non-skipped raw item in upstream order (`emitOne`), where
an item whose normalization raises is replaced by the fixed localized
fallback item, which carries no categories. -/
theorem c1_fault_isolation (users : Users) (l : List ApiItem)
    (h : ∀ a ∈ l, a.source_id.isSome ∧ a.type_.isSome ∧ a.date.isSome) :
    newsfeedItems users l = Except.ok (l.filterMap (emitOne users)) ∧
    (∀ a ∈ l, ∀ e, innerTry users a = Except.error e →
      emitOne users a = some (assignId a fallbackItem)) ∧
    fallbackItem.categories = none := by
  refine ⟨newsfeedAux_eq users l [] h, ?_, rfl⟩
  intro a _ e he
  simp [emitOne, he]

/-- Witness for C1 at a concrete feed: an unknown discriminator, a skipped
`wall_photo` and a normal `friend` item. -/
theorem c1_fault_isolation_witness :
    (∀ a ∈ demoItems, a.source_id.isSome ∧ a.type_.isSome ∧ a.date.isSome) ∧
    (newsfeedItems demoUsers demoItems =
      Except.ok (demoItems.filterMap (emitOne demoUsers)) ∧
    (∀ a ∈ demoItems, ∀ e, innerTry demoUsers a = Except.error e →
      emitOne demoUsers a = some (assignId a fallbackItem)) ∧
    fallbackItem.categories = none) :=
  ⟨by decide, c1_fault_isolation demoUsers demoItems (by decide)⟩

theorem loopBody_ok_cases (users : Users) (acc : List FeedItem) (a : ApiItem)
    (acc' : List FeedItem) (h : loopBody users acc a = Except.ok acc') :
    acc' = acc ∨ ∃ (s : Int) (t : String) (d : Int) (it : FeedItem),
      a.source_id = some s ∧ a.type_ = some t ∧
      a.date = some d ∧ acc' = acc ++ [{ it with
        id := some (_get_profile_name s ++ "/" ++ t ++ "/" ++ toString d),
        time := some d }] := by
  unfold loopBody at h
  cases hinner : innerTry users a with
  | ok o =>
    cases o with
    | none =>
      rw [hinner] at h
      simp only [Except.ok.injEq] at h
      exact Or.inl h.symm
    | some it =>
      rw [hinner] at h
      rw [except_bind_ok] at h
      obtain ⟨s, hs, h⟩ := h
      rw [except_bind_ok] at h
      obtain ⟨t, ht, h⟩ := h
      rw [except_bind_ok] at h
      obtain ⟨d, hd, h⟩ := h
      simp only [Except.ok.injEq] at h
      exact Or.inr ⟨s, t, d, it, getOpt_ok_iff.mp hs, getOpt_ok_iff.mp ht,
        getOpt_ok_iff.mp hd, h.symm⟩
  | error e =>
    rw [hinner] at h
    rw [except_bind_ok] at h
    obtain ⟨s, hs, h⟩ := h
    rw [except_bind_ok] at h
    obtain ⟨t, ht, h⟩ := h
    rw [except_bind_ok] at h
    obtain ⟨d, hd, h⟩ := h
    simp only [Except.ok.injEq] at h
    exact Or.inr ⟨s, t, d, fallbackItem, getOpt_ok_iff.mp hs,
      getOpt_ok_iff.mp ht, getOpt_ok_iff.mp hd, h.symm⟩

theorem c3_aux (users : Users) :
    ∀ (l : List ApiItem) (acc items : List FeedItem),
      l.foldlM (fun acc a => loopBody users acc a) acc = Except.ok items →
      ∀ it ∈ items, it ∈ acc ∨ ∃ a ∈ l, ∃ s t d, a.source_id = some s ∧
        a.type_ = some t ∧ a.date = some d ∧
        it.id = some (_get_profile_name s ++ "/" ++ t ++ "/" ++ toString d) ∧
        it.time = some d := by
  intro l
  induction l with
  | nil =>
    intro acc items h it hit
    left
    have : acc = items := by
      have h' : Except.ok acc = Except.ok items := h
      exact (Except.ok.injEq _ _).mp h'
    rw [this]; exact hit
  | cons a l ih =>
    intro acc items h it hit
    simp only [List.foldlM] at h
    cases hb : loopBody users acc a with
    | error e =>
      rw [hb] at h
      simp [Bind.bind, Except.bind] at h
    | ok acc' =>
      rw [hb] at h
      simp only [Bind.bind, Except.bind] at h
      rcases ih acc' items h it hit with hin | ⟨b, hbm, rest⟩
      · rcases loopBody_ok_cases users acc a acc' hb with heq | ⟨s, t, d, it0, hs, ht, hd, heq⟩
        · subst heq; exact Or.inl hin
        · subst heq
          rcases List.mem_append.mp hin with h1 | h2
          · exact Or.inl h1
          · have h3 := List.mem_singleton.mp h2
            subst h3
            exact Or.inr ⟨a, List.mem_cons_self a l, s, t, d, hs, ht, hd,
              rfl, rfl⟩
      · exact Or.inr ⟨b, List.mem_cons_of_mem a hbm, rest⟩

/-- C3: every emitted feed item, normal or fallback, has
`id = profile-name(source_id) ++ "/" ++ type ++ "/" ++ str(date)` and
publish time equal to the raw `date`; the id is thereby a pure function of
these raw fields, so identical raw input yields identical ids. -/
theorem c3_id_time (users : Users) (l : List ApiItem) (items : List FeedItem)
    (h : newsfeedItems users l = Except.ok items) :
    ∀ it ∈ items, ∃ a ∈ l, ∃ s t d, a.source_id = some s ∧
      a.type_ = some t ∧ a.date = some d ∧
      it.id = some (_get_profile_name s ++ "/" ++ t ++ "/" ++ toString d) ∧
      it.time = some d := by
  intro it hit
  unfold newsfeedItems at h
  rcases c3_aux users l [] items h it hit with hin | hgood
  · exact absurd hin (List.not_mem_nil it)
  · exact hgood

/-- Witness for C3 on the concrete demo feed. -/
theorem c3_id_time_witness :
    newsfeedItems demoUsers demoItems =
      Except.ok (demoItems.filterMap (emitOne demoUsers)) ∧
    ∀ it ∈ demoItems.filterMap (emitOne demoUsers), ∃ a ∈ demoItems,
      ∃ s t d, a.source_id = some s ∧ a.type_ = some t ∧ a.date = some d ∧
      it.id = some (_get_profile_name s ++ "/" ++ t ++ "/" ++ toString d) ∧
      it.time = some d :=
  ⟨by rfl, c3_id_time demoUsers demoItems
    (demoItems.filterMap (emitOne demoUsers)) (by rfl)⟩

/- ----------------------------------------------------------------------
C9: which missing carrier fields abort the whole build.
---------------------------------------------------------------------- -/

theorem innerTry_sid_none (users : Users) (a : ApiItem)
    (h : a.source_id = none) :
    innerTry users a = Except.error "KeyError: source_id" := by
  unfold innerTry
  rw [h]
  rfl

theorem innerTry_type_none (users : Users) (a : ApiItem)
    (h : a.type_ = none) :
    ∃ e, innerTry users a = Except.error e := by
  unfold innerTry
  cases hs : a.source_id with
  | none => exact ⟨_, rfl⟩
  | some s =>
    simp only [getOpt_some, except_ok_bind]
    cases hu : List.lookup s users with
    | none => exact ⟨_, rfl⟩
    | some u =>
      simp only [getOpt_some, except_ok_bind, h]
      exact ⟨_, rfl⟩

theorem idAssign_error (a : ApiItem) (it : FeedItem) (acc : List FeedItem)
    (h : a.source_id = none ∨ a.type_ = none ∨ a.date = none) :
    ∃ e, (do
      let sid ← getOpt a.source_id "source_id"
      let ty ← getOpt a.type_ "type"
      let date ← getOpt a.date "date"
      Except.ok (acc ++ [{ it with
        id := some (_get_profile_name sid ++ "/" ++ ty ++ "/" ++ toString date),
        time := some date }]) : Except String (List FeedItem)) =
      Except.error e := by
  rcases h with h | h | h
  · rw [h]; exact ⟨_, rfl⟩
  · cases hs : a.source_id with
    | none => exact ⟨_, rfl⟩
    | some s => rw [h]; exact ⟨_, rfl⟩
  · cases hs : a.source_id with
    | none => exact ⟨_, rfl⟩
    | some s =>
      cases htp : a.type_ with
      | none => exact ⟨_, rfl⟩
      | some t => rw [h]; exact ⟨_, rfl⟩

theorem loopBody_error_of_missing (users : Users) (acc : List FeedItem)
    (a : ApiItem)
    (hmiss : a.source_id = none ∨ a.type_ = none ∨
      (a.date = none ∧ innerTry users a ≠ Except.ok none)) :
    ∃ e, loopBody users acc a = Except.error e := by
  unfold loopBody
  cases hinner : innerTry users a with
  | error e0 =>
    rcases hmiss with h | h | h
    · exact idAssign_error a fallbackItem acc (Or.inl h)
    · exact idAssign_error a fallbackItem acc (Or.inr (Or.inl h))
    · exact idAssign_error a fallbackItem acc (Or.inr (Or.inr h.1))
  | ok o =>
    cases o with
    | none =>
      rcases hmiss with h | h | h
      · rw [innerTry_sid_none users a h] at hinner
        exact absurd hinner (by simp)
      · obtain ⟨e, he⟩ := innerTry_type_none users a h
        rw [he] at hinner
        exact absurd hinner (by simp)
      · exact absurd hinner h.2
    | some it =>
      rcases hmiss with h | h | h
      · exact idAssign_error a it acc (Or.inl h)
      · exact idAssign_error a it acc (Or.inr (Or.inl h))
      · exact idAssign_error a it acc (Or.inr (Or.inr h.1))

/-- Amended C9 (the claim as stated fails for skipped items that lack only
`date`): the id/time assignment lives outside the per-item handler, so a
raw item missing `source_id` or `type` always aborts the whole build, and
one missing `date` aborts it whenever the normalizer does not skip the
item; a skipped item never reads `date`. -/
theorem c9_boundary_amended (users : Users) (l : List ApiItem) (a : ApiItem)
    (ha : a ∈ l)
    (hmiss : a.source_id = none ∨ a.type_ = none ∨
      (a.date = none ∧ innerTry users a ≠ Except.ok none)) :
    ∃ e, newsfeedItems users l = Except.error e := by
  unfold newsfeedItems
  have haux : ∀ (l : List ApiItem) (acc : List FeedItem), a ∈ l →
      ∃ e, l.foldlM (fun acc b => loopBody users acc b) acc =
        Except.error e := by
    intro l
    induction l with
    | nil => intro acc h; exact absurd h (List.not_mem_nil a)
    | cons b l ih =>
      intro acc hmem
      simp only [List.foldlM]
      rcases List.mem_cons.mp hmem with rfl | hmem'
      · obtain ⟨e, he⟩ := loopBody_error_of_missing users acc a hmiss
        exact ⟨e, by rw [he]; rfl⟩
      · cases hb : loopBody users acc b with
        | error e => exact ⟨e, rfl⟩
        | ok acc' =>
          obtain ⟨e, he⟩ := ih acc' hmem'
          exact ⟨e, he⟩
  exact haux l [] ha

/-- Counterexample to C9 as stated: a raw `wall_photo` item with no `date`
field is skipped before the id/time assignment ever reads `date`, so the
feed build succeeds instead of failing. -/
theorem c9_boundary_counterexample :
    noDateItem.date = none ∧
    newsfeedItems demoUsers [noDateItem] = Except.ok [] :=
  ⟨rfl, rfl⟩

/-- Witness for the amended C9: one raw item with no `source_id` makes the
whole build fail. -/
theorem c9_boundary_amended_witness :
    ∃ e, newsfeedItems demoUsers [noSidItem] = Except.error e :=
  c9_boundary_amended demoUsers [noSidItem] noSidItem
    (List.mem_singleton.mpr rfl) (Or.inl rfl)

/- ----------------------------------------------------------------------
C10: a `note` item whose raw list holds only the declared count.
---------------------------------------------------------------------- -/

theorem note_item_empty_entries (users : Users) (u : UserInfo) (c : Int)
    (item : ApiItem) (hn : item.notes = some (c, [])) :
    _note_item users u item =
      Except.error "IndexError: list index out of range" := by
  unfold _note_item
  rw [hn]
  rfl

/-- C10: a raw `note` item whose `notes` list contains only the declared
count (no entries) makes `_note_item` raise while building the canonical
URL from the first entry, and the assembler therefore emits the fallback
error item (with the usual id/time) instead of skipping it. -/
theorem c10_note_count_only (users : Users) (u : UserInfo) (sid c d : Int)
    (hu : List.lookup sid users = some u) :
    _note_item users u (noteCountOnly sid c d) =
      Except.error "IndexError: list index out of range" ∧
    newsfeedItems users [noteCountOnly sid c d] =
      Except.ok [fallbackWithId sid "note" d] := by
  have hnote := note_item_empty_entries users u c (noteCountOnly sid c d) rfl
  refine ⟨hnote, ?_⟩
  have hinner : innerTry users (noteCountOnly sid c d) =
      Except.error "IndexError: list index out of range" := by
    have h1 : (noteCountOnly sid c d).source_id = some sid := rfl
    have h2 : (noteCountOnly sid c d).type_ = some "note" := rfl
    unfold innerTry
    rw [h1, h2]
    simp only [getOpt_some, except_ok_bind, hu]
    rw [if_neg (by decide), if_neg (by decide), if_neg (by decide),
      if_neg (by decide), if_pos (by decide)]
    rw [hnote]
    rfl
  unfold newsfeedItems
  simp only [List.foldlM]
  unfold loopBody
  rw [hinner]
  rfl

/-- Witness for C10 at a concrete item. -/
theorem c10_note_count_only_witness :
    _note_item demoUsers (UserInfo.mk 1 "Ann Lee" "P1") (noteCountOnly 1 2 8) =
      Except.error "IndexError: list index out of range" ∧
    newsfeedItems demoUsers [noteCountOnly 1 2 8] =
      Except.ok [fallbackWithId 1 "note" 8] :=
  c10_note_count_only demoUsers (UserInfo.mk 1 "Ann Lee" "P1") 1 2 8 rfl

/- ----------------------------------------------------------------------
C2: the check-in skip condition of `_post_item`.
---------------------------------------------------------------------- -/

theorem insertByKey_ne_nil {α : Type} (key : α → Nat) (x : α) (l : List α) :
    insertByKey key x l ≠ [] := by
  cases l with
  | nil => simp [insertByKey]
  | cons y ys => unfold insertByKey; split <;> simp

theorem sortByKey_eq_nil_iff {α : Type} (key : α → Nat) (l : List α) :
    sortByKey key l = [] ↔ l = [] := by
  cases l with
  | nil => simp [sortByKey]
  | cons x xs =>
    simp only [sortByKey]
    constructor
    · intro h; exact absurd h (insertByKey_ne_nil key x (sortByKey key xs))
    · intro h; simp at h

/-- C2: for a raw `post` item that carries a `date` field, `_post_item`
returns the skip signal exactly when the body text is present and empty,
the attachment list is empty (or absent), and a geolocation field is
present; with non-empty text, any attachment, or no geolocation it never
returns the skip signal. -/
theorem c2_skip_iff (users : Users) (user : UserInfo) (item : ApiItem)
    (d : Int) (hd : item.date = some d) :
    _post_item users user item = Except.ok none ↔
      (item.text = some "" ∧ item.attachments.getD [] = [] ∧
        item.geo = true) := by
  constructor
  · intro h
    unfold _post_item at h
    cases ht : item.text with
    | none =>
      rw [ht] at h
      simp [getOpt, Bind.bind, Except.bind] at h
    | some t =>
      rw [ht] at h
      simp only [getOpt_some, except_ok_bind] at h
      by_cases hc : (t = "" ∧
          sortByKey attachment_sort_key (item.attachments.getD []) = [] ∧
          item.geo = true)
      · exact ⟨by rw [hc.1], (sortByKey_eq_nil_iff _ _).mp hc.2.1, hc.2.2⟩
      · rw [if_neg hc] at h
        obtain ⟨st, _, h⟩ := except_bind_ok.mp h
        cases hco : item.copy_owner_id with
        | none =>
          cases hcp : item.copy_post_id with
          | none =>
            rw [hco, hcp] at h
            obtain ⟨y, _, h⟩ := except_bind_ok.mp h
            obtain ⟨pid, _, h⟩ := except_bind_ok.mp h
            simp [Pure.pure, Except.pure] at h
          | some cp =>
            rw [hco, hcp] at h
            obtain ⟨y, _, h⟩ := except_bind_ok.mp h
            obtain ⟨pid, _, h⟩ := except_bind_ok.mp h
            simp [Pure.pure, Except.pure] at h
        | some co =>
          cases hcp : item.copy_post_id with
          | none =>
            rw [hco, hcp] at h
            obtain ⟨y, _, h⟩ := except_bind_ok.mp h
            obtain ⟨pid, _, h⟩ := except_bind_ok.mp h
            simp [Pure.pure, Except.pure] at h
          | some cp =>
            rw [hco, hcp] at h
            obtain ⟨cu, _, h⟩ := except_bind_ok.mp h
            obtain ⟨y, _, h⟩ := except_bind_ok.mp h
            obtain ⟨pid, _, h⟩ := except_bind_ok.mp h
            simp [Pure.pure, Except.pure] at h
  · rintro ⟨ht, ha, hg⟩
    unfold _post_item
    rw [ht, ha]
    simp only [getOpt_some, except_ok_bind]
    rw [if_pos (by simp [sortByKey, hg]), hd]
    rfl

/-- Witness for C2: a check-in-only post is skipped. -/
theorem c2_skip_iff_witness :
    checkinPost.date = some 9 ∧
    (_post_item demoUsers (UserInfo.mk 1 "Ann Lee" "P1") checkinPost =
        Except.ok none ↔
      (checkinPost.text = some "" ∧ checkinPost.attachments.getD [] = [] ∧
        checkinPost.geo = true)) :=
  ⟨rfl, c2_skip_iff demoUsers (UserInfo.mk 1 "Ann Lee" "P1") checkinPost 9 rfl⟩

/- ----------------------------------------------------------------------
C6: the `link` attachment rendering.
---------------------------------------------------------------------- -/

/-- Amended C6: a `link` attachment renders an emphasized "Ссылка" label
with the link title as anchor, followed by: the image preview captioned
with the shown text whenever that text is non-empty, the image alone when
it is empty, or (without a preview) the text as a block when non-empty —
where the shown text is the markup-parsed description, with the link title
substituted when the parsed description is empty. -/
theorem c6_link_amended (users : Users) (big : Bool) (st : PState)
    (url title descr : String) (img : Option String) :
    attachLoopBody users big st (linkAtt url title descr img) =
      Except.ok { st with
        top_html := st.top_html ++ _block (linkFrag url title descr img),
        categories := insertCat st.categories "type/link" } := by
  have hty : (linkAtt url title descr img).atype = "link" := rfl
  have hurl : (linkAtt url title descr img).payload.url = some url := rfl
  have httl : (linkAtt url title descr img).payload.title = some title := rfl
  have hdsc : (linkAtt url title descr img).payload.description = some descr := rfl
  have himg : (linkAtt url title descr img).payload.image_src = img := rfl
  unfold attachLoopBody attachRender linkFrag linkCaption
  rw [hty, hurl, httl, hdsc, himg]
  rw [if_neg (by decide), if_neg (by decide), if_pos (by decide)]
  simp only [getOpt_some, except_ok_bind]
  cases img with
  | none =>
    by_cases hld : (if _parse_text descr = "" then title else _parse_text descr) = "" <;>
      simp [hld, Pure.pure, Except.pure, Bind.bind, Except.bind]
  | some i =>
    by_cases hld : (if _parse_text descr = "" then title else _parse_text descr) = "" <;>
      simp [hld, Pure.pure, Except.pure, Bind.bind, Except.bind]

/-- Counterexample to C6 as stated: with an empty description, a non-empty
title and an image preview the code renders the image with the *title* as
caption, not the image alone. -/
theorem c6_link_counterexample :
    attachLoopBody demoUsers false (PState.mk "" "" [] [])
        (linkAtt "U" "T" "" (some "I")) =
      Except.ok (PState.mk
        (_block (_em ("Ссылка: " ++ _link "U" "T") ++ _image_block "U" "I" "T"))
        "" ["type/link"] []) ∧
    _block (_em ("Ссылка: " ++ _link "U" "T") ++ _image_block "U" "I" "T") ≠
      _block (_em ("Ссылка: " ++ _link "U" "T") ++
        _block (_link "U" (_image "I"))) :=
  ⟨by rfl, by decide⟩

/- ----------------------------------------------------------------------
C4: the post-wide image size decision.
---------------------------------------------------------------------- -/

theorem str_append_assoc (a b c : String) : a ++ b ++ c = a ++ (b ++ c) := by
  cases a with
  | mk la =>
    cases b with
    | mk lb =>
      cases c with
      | mk lc =>
        show String.mk (la ++ lb ++ lc) = String.mk (la ++ (lb ++ lc))
        rw [List.append_assoc]

theorem str_append_nil (s : String) : s ++ "" = s := by
  cases s with
  | mk l =>
    show String.mk (l ++ []) = String.mk l
    rw [List.append_nil]

theorem str_nil_append (s : String) : "" ++ s = s := by
  cases s with
  | mk l => rfl

theorem photo_count_toAtt (l : List SimpleAtt) :
    photo_count (l.map toAtt) = pbCount l := by
  have step : ∀ a : SimpleAtt,
      (if (toAtt a).atype = "app" ∨ (toAtt a).atype = "graffiti" ∨
        (toAtt a).atype = "photo" ∨ (toAtt a).atype = "posted_photo"
       then 1 else 0) = (if isPhotoBearing a then 1 else 0) := by
    intro a
    cases a <;> rfl
  have aux : ∀ (l : List SimpleAtt) (c : Nat),
      List.foldl (fun count a => count +
        (if a.atype = "app" ∨ a.atype = "graffiti" ∨ a.atype = "photo" ∨
          a.atype = "posted_photo" then 1 else 0)) c (l.map toAtt) =
      List.foldl (fun c a => c + (if isPhotoBearing a then 1 else 0)) c l := by
    intro l
    induction l with
    | nil => intro c; rfl
    | cons a t ih =>
      intro c
      simp only [List.map_cons, List.foldl_cons]
      rw [step a]
      exact ih _
  exact aux l 0

theorem attach_step_simple (users : Users) (big : Bool) (st : PState)
    (a : SimpleAtt) :
    attachLoopBody users big st (toAtt a) = Except.ok
      { st with
        top_html := st.top_html ++ simpleFragment big a,
        categories := insertCat st.categories ("type/" ++ catOf a) } := by
  cases a with
  | app i s b =>
    have hty : (toAtt (SimpleAtt.app i s b)).atype = "app" := rfl
    have hid : (toAtt (SimpleAtt.app i s b)).payload.app_id = some i := rfl
    have hsr : (toAtt (SimpleAtt.app i s b)).payload.src = some s := rfl
    have hsb : (toAtt (SimpleAtt.app i s b)).payload.src_big = some b := rfl
    unfold attachLoopBody attachRender simpleFragment catOf
    rw [hty, hid, hsr, hsb]
    rw [if_pos rfl]
    cases big <;>
      simp [getOpt_some, except_ok_bind, Pure.pure, Except.pure,
        Bind.bind, Except.bind]
  | graffiti g s b =>
    have hty : (toAtt (SimpleAtt.graffiti g s b)).atype = "graffiti" := rfl
    have hgd : (toAtt (SimpleAtt.graffiti g s b)).payload.gid = some g := rfl
    have hsr : (toAtt (SimpleAtt.graffiti g s b)).payload.src = some s := rfl
    have hsb : (toAtt (SimpleAtt.graffiti g s b)).payload.src_big = some b := rfl
    unfold attachLoopBody attachRender simpleFragment catOf
    rw [hty, hgd, hsr, hsb]
    rw [if_neg (by decide), if_pos rfl]
    cases big <;>
      simp [getOpt_some, except_ok_bind, Pure.pure, Except.pure,
        Bind.bind, Except.bind]
  | photo o p s b =>
    have hty : (toAtt (SimpleAtt.photo o p s b)).atype = "photo" := rfl
    have how : (toAtt (SimpleAtt.photo o p s b)).payload.owner_id = some o := rfl
    have hpi : (toAtt (SimpleAtt.photo o p s b)).payload.pid = some p := rfl
    have hsr : (toAtt (SimpleAtt.photo o p s b)).payload.src = some s := rfl
    have hsb : (toAtt (SimpleAtt.photo o p s b)).payload.src_big = some b := rfl
    unfold attachLoopBody attachRender _photo simpleFragment catOf
    rw [hty, how, hpi, hsr, hsb]
    rw [if_neg (by decide), if_neg (by decide), if_neg (by decide),
      if_neg (by decide), if_pos rfl]
    cases big <;>
      simp [getOpt_some, except_ok_bind, Pure.pure, Except.pure,
        Bind.bind, Except.bind]
  | posted_photo o p s b =>
    have hty : (toAtt (SimpleAtt.posted_photo o p s b)).atype =
      "posted_photo" := rfl
    have how : (toAtt (SimpleAtt.posted_photo o p s b)).payload.owner_id =
      some o := rfl
    have hpi : (toAtt (SimpleAtt.posted_photo o p s b)).payload.pid =
      some p := rfl
    have hsr : (toAtt (SimpleAtt.posted_photo o p s b)).payload.src =
      some s := rfl
    have hsb : (toAtt (SimpleAtt.posted_photo o p s b)).payload.src_big =
      some b := rfl
    unfold attachLoopBody attachRender _photo simpleFragment catOf
    rw [hty, how, hpi, hsr, hsb]
    rw [if_neg (by decide), if_neg (by decide), if_neg (by decide),
      if_neg (by decide), if_neg (by decide), if_pos rfl]
    cases big <;>
      simp [getOpt_some, except_ok_bind, Pure.pure, Except.pure,
        Bind.bind, Except.bind]
  | note t =>
    have hty : (toAtt (SimpleAtt.note t)).atype = "note" := rfl
    have hti : (toAtt (SimpleAtt.note t)).payload.title = some t := rfl
    unfold attachLoopBody attachRender simpleFragment catOf
    rw [hty, hti]
    rw [if_neg (by decide), if_neg (by decide), if_neg (by decide),
      if_neg (by decide), if_neg (by decide), if_neg (by decide),
      if_neg (by decide), if_neg (by decide), if_neg (by decide),
      if_neg (by decide), if_pos rfl]
    simp [getOpt_some, except_ok_bind, Pure.pure, Except.pure,
      Bind.bind, Except.bind]
  | page t =>
    have hty : (toAtt (SimpleAtt.page t)).atype = "page" := rfl
    have hti : (toAtt (SimpleAtt.page t)).payload.title = some t := rfl
    unfold attachLoopBody attachRender simpleFragment catOf
    rw [hty, hti]
    rw [if_neg (by decide), if_neg (by decide), if_neg (by decide),
      if_neg (by decide), if_neg (by decide), if_neg (by decide),
      if_neg (by decide), if_neg (by decide), if_neg (by decide),
      if_neg (by decide), if_neg (by decide), if_pos rfl]
    simp [getOpt_some, except_ok_bind, Pure.pure, Except.pure,
      Bind.bind, Except.bind]
  | poll q =>
    have hty : (toAtt (SimpleAtt.poll q)).atype = "poll" := rfl
    have hqu : (toAtt (SimpleAtt.poll q)).payload.question = some q := rfl
    unfold attachLoopBody attachRender simpleFragment catOf
    rw [hty, hqu]
    rw [if_neg (by decide), if_neg (by decide), if_neg (by decide),
      if_neg (by decide), if_neg (by decide), if_neg (by decide),
      if_neg (by decide), if_neg (by decide), if_neg (by decide),
      if_neg (by decide), if_neg (by decide), if_neg (by decide),
      if_pos rfl]
    simp [getOpt_some, except_ok_bind, Pure.pure, Except.pure,
      Bind.bind, Except.bind]

theorem simpleLoop (users : Users) (big : Bool) :
    ∀ (l : List SimpleAtt) (st : PState),
      List.foldlM (fun s a => attachLoopBody users big s a) st (l.map toAtt) =
        Except.ok { st with
          top_html := st.top_html ++ concatS (l.map (simpleFragment big)),
          categories := l.foldl
            (fun c a => insertCat c ("type/" ++ catOf a)) st.categories } := by
  intro l
  induction l with
  | nil =>
    intro st
    show pure st = _
    rw [show concatS (([] : List SimpleAtt).map (simpleFragment big)) = ""
      from rfl]
    rw [str_append_nil]
    rfl
  | cons a t ih =>
    intro st
    simp only [List.map_cons, List.foldlM, attach_step_simple users big st a,
      except_ok_bind]
    rw [ih]
    have hj : concatS (simpleFragment big a :: t.map (simpleFragment big)) =
        simpleFragment big a ++ concatS (t.map (simpleFragment big)) := rfl
    rw [hj, ← str_append_assoc]
    rfl

/-- C4: for a post carrying any mixed list of simple attachments (the
four photo-bearing kinds `app`, `graffiti`, `photo`, `posted_photo`
together with the photo-free `note`, `page` and `poll`), the
large/standard image choice is post-wide: every attachment renders
through `simpleFragment (pbCount l == 1)`, so a photo-bearing attachment
embeds its large variant exactly when the whole attachment list contains
exactly one photo-bearing attachment -- photo-free attachments do not
count towards the decision -- and with two or more photo-bearing
attachments every image renders at standard size. -/
theorem c4_post_wide_image_size (users : Users) (user : UserInfo)
    (item : ApiItem) (l : List SimpleAtt) (t : String) (pid : Int)
    (hatt : item.attachments = some (l.map toAtt))
    (hsorted : sortByKey attachment_sort_key (l.map toAtt) = l.map toAtt)
    (htext : item.text = some t) (ht : t ≠ "")
    (hatt1 : item.attachment = none)
    (hco : item.copy_owner_id = none)
    (hpid : item.post_id = some pid) :
    _post_item users user item =
      Except.ok (some (mixedPostResult user l t pid)) := by
  have hsort : sortByKey attachment_sort_key (item.attachments.getD []) =
      l.map toAtt := by
    rw [hatt]
    exact hsorted
  unfold _post_item
  rw [htext]
  simp only [getOpt_some, except_ok_bind]
  rw [hsort]
  rw [if_neg (fun hc => ht hc.1)]
  rw [hatt1, hco]
  rw [photo_count_toAtt l]
  rw [simpleLoop users (pbCount l == 1) l (PState.mk "" "" [] [])]
  simp only [except_ok_bind]
  rw [hpid]
  simp only [getOpt_some, except_ok_bind]
  unfold mixedPostResult
  rw [str_nil_append, str_append_nil]
  rfl

/-- Witness for C4: a note plus one photo (two attachments, one
photo-bearing) renders the photo large, while one app plus one
posted_photo (two photo-bearing) render both standard. -/
theorem c4_post_wide_image_size_witness :
    _post_item demoUsers (UserInfo.mk 1 "Ann Lee" "P1")
        (mixedPostItem [SimpleAtt.note "N", SimpleAtt.photo 4 5 "S" "B"]) =
      Except.ok (some (mixedPostResult (UserInfo.mk 1 "Ann Lee" "P1")
        [SimpleAtt.note "N", SimpleAtt.photo 4 5 "S" "B"] "hi" 3)) ∧
    _post_item demoUsers (UserInfo.mk 1 "Ann Lee" "P1")
        (mixedPostItem [SimpleAtt.posted_photo 6 7 "S2" "B2",
          SimpleAtt.app 2 "S1" "B1"]) =
      Except.ok (some (mixedPostResult (UserInfo.mk 1 "Ann Lee" "P1")
        [SimpleAtt.posted_photo 6 7 "S2" "B2", SimpleAtt.app 2 "S1" "B1"]
        "hi" 3)) :=
  ⟨c4_post_wide_image_size demoUsers (UserInfo.mk 1 "Ann Lee" "P1") _
      [SimpleAtt.note "N", SimpleAtt.photo 4 5 "S" "B"] "hi" 3 rfl rfl rfl
      (by decide) rfl rfl rfl,
    c4_post_wide_image_size demoUsers (UserInfo.mk 1 "Ann Lee" "P1") _
      [SimpleAtt.posted_photo 6 7 "S2" "B2", SimpleAtt.app 2 "S1" "B1"]
      "hi" 3 rfl rfl rfl (by decide) rfl rfl rfl⟩

/- ----------------------------------------------------------------------
C7: the production-mode whitespace compaction.
---------------------------------------------------------------------- -/

theorem compactF_nil (f : Nat) : compactF f [] = [] := by
  cases f <;> rfl

theorem compactF_head (f : Nat) (l : List Char) :
    (compactF f l).head? = l.head? := by
  cases f with
  | zero => rfl
  | succ f =>
    cases l with
    | nil => rfl
    | cons c r =>
      simp only [compactF]
      by_cases hc : c = '>'
      · subst hc
        rw [if_pos rfl]
        split <;> rfl
      · rw [if_neg hc]
        rfl

theorem takeWhile_nil_of_head {p : Char → Bool} {X : List Char} {d : Char}
    (hh : X.head? = some d) (hd : p d = false) : X.takeWhile p = [] := by
  cases X with
  | nil => rfl
  | cons a X' =>
    simp only [List.head?_cons, Option.some.injEq] at hh
    subst hh
    simp [List.takeWhile_cons, hd]

theorem compactF_dropWs_head (f : Nat) :
    ∀ l : List Char,
      (l.dropWhile (fun d => isWsC d)).head? ≠ some '<' →
      ((compactF f l).dropWhile (fun d => isWsC d)).head? ≠ some '<' := by
  have hgt : ∀ Y : List Char,
      (('>' :: Y).dropWhile (fun d => isWsC d)).head? = some '>' := by
    intro Y
    rw [List.dropWhile_cons, if_neg (by decide)]
    rfl
  induction f with
  | zero => intro l h; exact h
  | succ f ih =>
    intro l h
    cases l with
    | nil => exact h
    | cons d r =>
      simp only [compactF]
      by_cases hd : d = '>'
      · subst hd
        rw [if_pos rfl]
        split
        · rw [hgt]; decide
        · rw [hgt]; decide
      · rw [if_neg hd]
        by_cases hw : isWsC d
        · have h' : (r.dropWhile (fun x => isWsC x)).head? ≠ some '<' := by
            rw [List.dropWhile_cons, if_pos hw] at h
            exact h
          rw [List.dropWhile_cons, if_pos hw]
          exact ih r h'
        · have hd' : d ≠ '<' := by
            intro hEq
            apply h
            rw [List.dropWhile_cons, if_neg hw, hEq]
            rfl
          rw [List.dropWhile_cons, if_neg hw]
          simp [hd']

theorem compactF_of_noMatch (f : Nat) :
    ∀ l, noMatchC l = true → compactF f l = l := by
  induction f with
  | zero => intro l _; rfl
  | succ f ih =>
    intro l h
    cases l with
    | nil => rfl
    | cons c r =>
      simp only [noMatchC] at h
      by_cases hc : c = '>'
      · subst hc
        by_cases hm : (r.takeWhile (fun d => isWsC d) ≠ [] ∧
            (r.dropWhile (fun d => isWsC d)).head? = some '<')
        · rw [if_pos ⟨rfl, hm⟩] at h
          exact absurd h (by simp)
        · rw [if_neg (fun hh => hm hh.2)] at h
          simp only [compactF]
          rw [if_pos trivial, if_neg hm, ih r h]
      · rw [if_neg (fun hh => hc hh.1)] at h
        simp only [compactF, if_neg hc]
        rw [ih r h]

theorem noMatch_compactF : ∀ (f : Nat) (l : List Char), l.length < f →
    noMatchC (compactF f l) = true := by
  intro f
  induction f with
  | zero => intro l h; exact absurd h (Nat.not_lt_zero _)
  | succ f ih =>
    intro l h
    cases l with
    | nil => rfl
    | cons c r =>
      have hr : r.length < f := Nat.lt_of_succ_lt_succ (by simpa using h)
      by_cases hc : c = '>'
      · subst hc
        simp only [compactF, if_pos rfl]
        by_cases hm : (r.takeWhile (fun d => isWsC d) ≠ [] ∧
            (r.dropWhile (fun d => isWsC d)).head? = some '<')
        · rw [if_pos hm]
          obtain ⟨hm1, hm2⟩ := hm
          obtain ⟨X, hX⟩ : ∃ X, r.dropWhile (fun d => isWsC d) = '<' :: X := by
            cases hrest : r.dropWhile (fun d => isWsC d) with
            | nil => rw [hrest] at hm2; simp at hm2
            | cons a Y =>
              rw [hrest] at hm2
              simp only [List.head?_cons, Option.some.injEq] at hm2
              exact ⟨Y, by rw [hm2]⟩
          have hsum : (r.takeWhile (fun d => isWsC d)).length +
              (r.dropWhile (fun d => isWsC d)).length = r.length := by
            rw [← List.length_append, List.takeWhile_append_dropWhile]
          have hrun : 1 ≤ (r.takeWhile (fun d => isWsC d)).length := by
            cases htw : r.takeWhile (fun d => isWsC d) with
            | nil => exact absurd htw hm1
            | cons _ _ => simp
          have hlen : X.length < f := by
            rw [hX] at hsum
            simp only [List.length_cons] at hsum
            omega
          rw [hX]
          simp only [List.tail_cons, noMatchC]
          rw [if_neg (by
            rintro ⟨_, hne, _⟩
            exact hne (by
              have : isWsC '<' = false := by decide
              simp [List.takeWhile_cons, this]))]
          rw [if_neg (by rintro ⟨hlt, _⟩; exact absurd hlt (by decide))]
          exact ih X hlen
        · rw [if_neg hm]
          simp only [noMatchC]
          rw [if_neg (by
            rintro ⟨_, h1, h2⟩
            by_cases hw : r.takeWhile (fun d => isWsC d) = []
            · cases r with
              | nil =>
                rw [compactF_nil] at h1
                exact h1 rfl
              | cons d r' =>
                have hnw : isWsC d = false := by
                  by_contra hcon
                  rw [List.takeWhile_cons,
                    if_pos (by revert hcon; cases isWsC d <;> simp)] at hw
                  exact List.noConfusion hw
                have hhd : (compactF f (d :: r')).head? = some d :=
                  (compactF_head f (d :: r')).trans rfl
                exact h1 (takeWhile_nil_of_head hhd hnw)
            · have hne : (r.dropWhile (fun d => isWsC d)).head? ≠ some '<' :=
                fun hcon => hm ⟨hw, hcon⟩
              exact compactF_dropWs_head f r hne h2)]
          exact ih r hr
      · simp only [compactF, if_neg hc, noMatchC]
        rw [if_neg (fun hh => hc hh.1)]
        exact ih r hr

theorem compactF_sublist : ∀ (f : Nat) (l : List Char),
    List.Sublist (compactF f l) l := by
  intro f
  induction f with
  | zero => intro l; exact List.Sublist.refl l
  | succ f ih =>
    intro l
    cases l with
    | nil => exact List.Sublist.refl []
    | cons d r =>
      by_cases hd : d = '>'
      · subst hd
        simp only [compactF, if_pos rfl]
        by_cases hm : (r.takeWhile (fun x => isWsC x) ≠ [] ∧
            (r.dropWhile (fun x => isWsC x)).head? = some '<')
        · rw [if_pos hm]
          obtain ⟨X, hX⟩ : ∃ X, r.dropWhile (fun x => isWsC x) = '<' :: X := by
            cases hrest : r.dropWhile (fun x => isWsC x) with
            | nil => rw [hrest] at hm; simp at hm
            | cons a Y =>
              obtain ⟨_, hm2⟩ := hm
              rw [hrest] at hm2
              simp only [List.head?_cons, Option.some.injEq] at hm2
              exact ⟨Y, by rw [hm2]⟩
          rw [hX]
          simp only [List.tail_cons]
          refine List.Sublist.cons₂ _ ?_
          have : List.Sublist ('<' :: compactF f X) ('<' :: X) :=
            List.Sublist.cons₂ _ (ih X)
          refine this.trans ?_
          conv_rhs => rw [← List.takeWhile_append_dropWhile
            (p := fun x => isWsC x) (l := r), hX]
          exact List.sublist_append_right _ _
        · rw [if_neg hm]
          exact List.Sublist.cons₂ _ (ih r)
      · simp only [compactF, if_neg hd]
        exact List.Sublist.cons₂ _ (ih r)

theorem compactF_count (c : Char) (hc : isWsC c = false) :
    ∀ (f : Nat) (l : List Char),
      List.count c (compactF f l) = List.count c l := by
  intro f
  induction f with
  | zero => intro l; rfl
  | succ f ih =>
    intro l
    cases l with
    | nil => rfl
    | cons d r =>
      by_cases hd : d = '>'
      · subst hd
        simp only [compactF, if_pos rfl]
        by_cases hm : (r.takeWhile (fun x => isWsC x) ≠ [] ∧
            (r.dropWhile (fun x => isWsC x)).head? = some '<')
        · rw [if_pos hm]
          obtain ⟨X, hX⟩ : ∃ X, r.dropWhile (fun x => isWsC x) = '<' :: X := by
            cases hrest : r.dropWhile (fun x => isWsC x) with
            | nil => rw [hrest] at hm; simp at hm
            | cons a Y =>
              obtain ⟨_, hm2⟩ := hm
              rw [hrest] at hm2
              simp only [List.head?_cons, Option.some.injEq] at hm2
              exact ⟨Y, by rw [hm2]⟩
          rw [hX]
          simp only [List.tail_cons]
          have hzero : List.count c (r.takeWhile (fun x => isWsC x)) = 0 := by
            rw [List.count_eq_zero]
            intro hmem
            have hws := List.mem_takeWhile_imp hmem
            rw [hc] at hws
            exact Bool.noConfusion hws
          conv_rhs => rw [← List.takeWhile_append_dropWhile
            (p := fun x => isWsC x) (l := r), hX]
          simp [List.count_cons, List.count_append, ih, hzero]
        · rw [if_neg hm]
          simp [List.count_cons, ih]
      · simp only [compactF, if_neg hd]
        simp [List.count_cons, ih]

/-- C7: the production-mode whitespace compaction of `generate` is
idempotent; it only ever deletes characters (the output is a sublist of
the input) and deletes no non-whitespace character, so the textual content
of every tag is preserved; and in debug mode the serializer output is
returned unmodified. -/
theorem c7_compaction (s : String) (c : Char) (hc : isWsC c = false) :
    generate false (generate false s) = generate false s ∧
    List.Sublist (compactChars s.data) s.data ∧
    List.count c (compactChars s.data) = List.count c s.data ∧
    generate true s = s := by
  refine ⟨?_, compactF_sublist _ _, compactF_count c hc _ _, rfl⟩
  show String.mk (compactChars (compactChars s.data)) = String.mk (compactChars s.data)
  rw [show compactChars (compactChars s.data) = compactChars s.data from
    compactF_of_noMatch _ _ (noMatch_compactF _ _ (Nat.lt_succ_self _))]

/-- Witness for C7 at a concrete serialized feed. -/
theorem c7_compaction_witness :
    isWsC 'a' = false ∧
    (generate false (generate false "<p> <b>a b</b>  </p>") =
        generate false "<p> <b>a b</b>  </p>" ∧
      List.Sublist (compactChars "<p> <b>a b</b>  </p>".data)
        "<p> <b>a b</b>  </p>".data ∧
      List.count 'a' (compactChars "<p> <b>a b</b>  </p>".data) =
        List.count 'a' "<p> <b>a b</b>  </p>".data ∧
      generate true "<p> <b>a b</b>  </p>" = "<p> <b>a b</b>  </p>") :=
  ⟨by decide, c7_compaction "<p> <b>a b</b>  </p>" 'a' (by decide)⟩

/- ----------------------------------------------------------------------
C8: bare URLs followed by a period in `_parse_text`.
---------------------------------------------------------------------- -/

theorem str_mk_data (l : List Char) : (String.mk l).data = l := rfl

theorem str_data_append (a b : String) : (a ++ b).data = a.data ++ b.data := by
  cases a
  cases b
  rfl

theorem lazyScanF_clean :
    ∀ (U acc : List Char) (f : Nat),
      (acc = [] → U ≠ []) →
      (∀ c ∈ U, isWsU c = false ∧ c ≠ '\'' ∧ c ≠ '<') →
      lazyScanF (f + U.length + 1) acc (U ++ ['.']) =
        some (acc.reverse ++ U, ['.'], []) := by
  intro U
  induction U with
  | nil =>
    intro acc f hne _
    have hacc : acc.isEmpty = false := by
      cases acc with
      | nil => exact absurd rfl (hne rfl)
      | cons a as => rfl
    simp [lazyScanF, hacc, matchTail]
  | cons c U ih =>
    intro acc f hne hch
    have hc := hch c (List.mem_cons_self c U)
    have hch' : ∀ d ∈ U, isWsU d = false ∧ d ≠ '\'' ∧ d ≠ '<' :=
      fun d hd => hch d (List.mem_cons_of_mem c hd)
    have hmt : matchTail ((c :: U) ++ ['.']) = none := by
      show matchTail (c :: (U ++ ['.'])) = none
      by_cases hcd : c = '.'
      · subst hcd
        simp only [matchTail, if_pos rfl]
        cases U with
        | nil => decide
        | cons d U' =>
          have hd := hch' d (List.mem_cons_self d U')
          show (if d = '<' ∨ isWsU d then some (['.', d], U' ++ ['.'])
            else none) = none
          rw [if_neg]
          rintro (h | h)
          · exact hd.2.2 h
          · rw [hd.1] at h
            exact Bool.noConfusion h
      · simp only [matchTail]
        rw [if_neg hcd, if_neg]
        rintro (h | h)
        · exact hc.2.2 h
        · rw [hc.1] at h
          exact Bool.noConfusion h
    have hbr : (if acc.isEmpty then none else matchTail ((c :: U) ++ ['.'])) =
        (none : Option (List Char × List Char)) := by
      cases acc with
      | nil => rfl
      | cons a as => simpa using hmt
    rw [show f + (c :: U).length + 1 = ((f + U.length) + 1) + 1 from by
      simp [List.length_cons]
      omega]
    simp only [lazyScanF]
    rw [hbr]
    show (if c = '\'' then none
      else lazyScanF ((f + U.length) + 1) (c :: acc) (U ++ ['.'])) = _
    rw [if_neg hc.2.1]
    rw [show (f + U.length) + 1 = f + U.length + 1 from rfl]
    rw [ih (c :: acc) f (fun h => List.noConfusion h) hch']
    simp [List.append_assoc]

theorem pass1F_nil (f : Nat) (b : Bool) : pass1F f b [] = [] := by
  cases f with
  | zero => rfl
  | succ f => cases b <;> rfl

theorem pass1_see (U : List Char) (hne : U ≠ [])
    (hch : ∀ c ∈ U, isWsU c = false ∧ c ≠ '\'' ∧ c ≠ '<') (f : Nat) :
    pass1F (f + 5) true ("see http://".data ++ (U ++ ['.'])) =
      "see ".data ++ (_link (String.mk ("http://".data ++ U))
        (String.mk ("http://".data ++ U))).data ++ ['.'] := by
  have hs : ∀ (g : Nat) (l : List Char),
      pass1F (g + 1) true ('s' :: l) = 's' :: pass1F g false l :=
    fun g l => rfl
  have he : ∀ (g : Nat) (l : List Char),
      pass1F (g + 1) false ('e' :: l) = 'e' :: pass1F g false l :=
    fun g l => rfl
  have hsp : ∀ (g : Nat) (l : List Char),
      pass1F (g + 1) false (' ' :: l) =
        (match tryMatch1 l with
          | some (rep, rest) => ' ' :: (rep ++ pass1F g false rest)
          | none => ' ' :: pass1F g false l) :=
    fun g l => rfl
  have hlz : lazyScanF ((U ++ ['.']).length + 1) [] (U ++ ['.']) =
      some (U, ['.'], []) := by
    rw [show (U ++ ['.']).length + 1 = 1 + U.length + 1 from by
      simp [List.length_append]
      omega]
    have h0 := lazyScanF_clean U [] 1 (fun _ => hne) hch
    simpa using h0
  have htm : tryMatch1 ("http://".data ++ (U ++ ['.'])) =
      some ((_link (String.mk ("http://".data ++ U))
        (String.mk ("http://".data ++ U))).data ++ ['.'], []) := by
    have e2 : tryMatch1 ("http://".data ++ (U ++ ['.'])) =
        (match lazyScanF ((U ++ ['.']).length + 1) [] (U ++ ['.']) with
          | none => none
          | some (u, g3, rest) =>
            some ((_link (String.mk ("http://".data ++ u))
              (String.mk ("http://".data ++ u))).data ++ g3, rest)) := rfl
    rw [e2, hlz]
  show pass1F (f + 5) true
    ('s' :: 'e' :: 'e' :: ' ' :: ("http://".data ++ (U ++ ['.']))) = _
  rw [show f + 5 = (f + 4) + 1 from by omega, hs,
    show f + 4 = (f + 3) + 1 from by omega, he,
    show f + 3 = (f + 2) + 1 from by omega, he,
    show f + 2 = (f + 1) + 1 from by omega, hsp, htm]
  simp [pass1F_nil]

theorem pass2NoMatch_cons_iff (b : Bool) (c : Char) (r : List Char) :
    pass2NoMatch b (c :: r) ↔
      ((b = true → tryMatch2 (c :: r) = none) ∧
        ((isWsU c ∨ c = '>') → tryMatch2 r = none) ∧ pass2NoMatch false r) :=
  Iff.rfl

theorem pass2NoMatch_nil_iff (b : Bool) :
    pass2NoMatch b [] ↔ ((b = true → tryMatch2 [] = none) ∧ True) :=
  Iff.rfl

theorem pass2F_fix (f : Nat) : ∀ (b : Bool) (l : List Char),
    pass2NoMatch b l → pass2F f b l = l := by
  induction f with
  | zero => intro b l _; rfl
  | succ f ih =>
    intro b l h
    cases l with
    | nil => cases b <;> rfl
    | cons c r =>
      rw [pass2NoMatch_cons_iff] at h
      obtain ⟨h1, hb, hrest⟩ := h
      have hfirst : (if b then tryMatch2 (c :: r) else none) = none := by
        cases b with
        | false => rfl
        | true => simpa using h1 rfl
      simp only [pass2F]
      rw [hfirst]
      show (if isWsU c ∨ c = '>' then
          match tryMatch2 r with
          | some (rep, rest) => c :: (rep ++ pass2F f false rest)
          | none => c :: pass2F f false r
        else c :: pass2F f false r) = c :: r
      by_cases hc : (isWsU c ∨ c = '>')
      · rw [if_pos hc, hb hc]
        show c :: pass2F f false r = c :: r
        rw [ih false r hrest]
      · rw [if_neg hc, ih false r hrest]

theorem pass2NoMatch_nil : pass2NoMatch false [] :=
  (pass2NoMatch_nil_iff false).mpr ⟨fun h => absurd h (by decide), trivial⟩

theorem pass2NoMatch_cons_nb (c : Char) (r : List Char)
    (hc : isWsU c = false ∧ c ≠ '>') (h : pass2NoMatch false r) :
    pass2NoMatch false (c :: r) := by
  rw [pass2NoMatch_cons_iff]
  refine ⟨fun hh => absurd hh (by decide), ?_, h⟩
  rintro (h1 | h1)
  · rw [hc.1] at h1
    exact Bool.noConfusion h1
  · exact absurd h1 hc.2

theorem pass2NoMatch_cons_bd (c : Char) (r : List Char)
    (hr : tryMatch2 r = none) (h : pass2NoMatch false r) :
    pass2NoMatch false (c :: r) :=
  (pass2NoMatch_cons_iff false c r).mpr
    ⟨fun hh => absurd hh (by decide), fun _ => hr, h⟩

theorem pass2NoMatch_append_clean :
    ∀ (U : List Char), (∀ c ∈ U, isWsU c = false ∧ c ≠ '>') →
      ∀ m, pass2NoMatch false m → pass2NoMatch false (U ++ m) := by
  intro U
  induction U with
  | nil => intro _ m h; exact h
  | cons c U ih =>
    intro hch m h
    exact pass2NoMatch_cons_nb c (U ++ m)
      (hch c (List.mem_cons_self c U))
      (ih (fun d hd => hch d (List.mem_cons_of_mem c hd)) m h)

theorem pass2NoMatch_true_of (l : List Char) (h0 : tryMatch2 l = none)
    (h : pass2NoMatch false l) : pass2NoMatch true l := by
  cases l with
  | nil => exact (pass2NoMatch_nil_iff true).mpr ⟨fun _ => h0, trivial⟩
  | cons c r =>
    rw [pass2NoMatch_cons_iff] at h ⊢
    exact ⟨fun _ => h0, h.2⟩

theorem c8Out_noMatch2 (U : List Char)
    (hU : ∀ c ∈ U, isWsU c = false ∧ c ≠ '>') :
    pass2NoMatch true (c8Out U) := by
  have m1 : pass2NoMatch false ("</a>.".data) := by
    show pass2NoMatch false ('<' :: '/' :: 'a' :: '>' :: '.' :: [])
    refine pass2NoMatch_cons_nb '<' _ (by decide) ?_
    refine pass2NoMatch_cons_nb '/' _ (by decide) ?_
    refine pass2NoMatch_cons_nb 'a' _ (by decide) ?_
    refine pass2NoMatch_cons_bd '>' _ rfl ?_
    refine pass2NoMatch_cons_nb '.' _ (by decide) ?_
    exact pass2NoMatch_nil
  have m2 : pass2NoMatch false (U ++ "</a>.".data) :=
    pass2NoMatch_append_clean U hU _ m1
  have m3 : pass2NoMatch false ("'>http://".data ++ (U ++ "</a>.".data)) := by
    show pass2NoMatch false
      ('\'' :: '>' :: ("http://".data ++ (U ++ "</a>.".data)))
    refine pass2NoMatch_cons_nb '\'' _ (by decide) ?_
    refine pass2NoMatch_cons_bd '>' _ rfl ?_
    show pass2NoMatch false
      ('h' :: 't' :: 't' :: 'p' :: ':' :: '/' :: '/' :: (U ++ "</a>.".data))
    refine pass2NoMatch_cons_nb 'h' _ (by decide) ?_
    refine pass2NoMatch_cons_nb 't' _ (by decide) ?_
    refine pass2NoMatch_cons_nb 't' _ (by decide) ?_
    refine pass2NoMatch_cons_nb 'p' _ (by decide) ?_
    refine pass2NoMatch_cons_nb ':' _ (by decide) ?_
    refine pass2NoMatch_cons_nb '/' _ (by decide) ?_
    refine pass2NoMatch_cons_nb '/' _ (by decide) ?_
    exact m2
  have m4 : pass2NoMatch false
      (U ++ ("'>http://".data ++ (U ++ "</a>.".data))) :=
    pass2NoMatch_append_clean U hU _ m3
  have m5 : pass2NoMatch false (c8Out U) := by
    show pass2NoMatch false
      ('s' :: 'e' :: 'e' :: ' ' :: '<' :: 'a' :: ' ' :: 'h' :: 'r' :: 'e' ::
        'f' :: '=' :: '\'' :: 'h' :: 't' :: 't' :: 'p' :: ':' :: '/' :: '/' ::
        (U ++ ("'>http://".data ++ (U ++ "</a>.".data))))
    refine pass2NoMatch_cons_nb 's' _ (by decide) ?_
    refine pass2NoMatch_cons_nb 'e' _ (by decide) ?_
    refine pass2NoMatch_cons_nb 'e' _ (by decide) ?_
    refine pass2NoMatch_cons_bd ' ' _ rfl ?_
    refine pass2NoMatch_cons_nb '<' _ (by decide) ?_
    refine pass2NoMatch_cons_nb 'a' _ (by decide) ?_
    refine pass2NoMatch_cons_bd ' ' _ rfl ?_
    refine pass2NoMatch_cons_nb 'h' _ (by decide) ?_
    refine pass2NoMatch_cons_nb 'r' _ (by decide) ?_
    refine pass2NoMatch_cons_nb 'e' _ (by decide) ?_
    refine pass2NoMatch_cons_nb 'f' _ (by decide) ?_
    refine pass2NoMatch_cons_nb '=' _ (by decide) ?_
    refine pass2NoMatch_cons_nb '\'' _ (by decide) ?_
    refine pass2NoMatch_cons_nb 'h' _ (by decide) ?_
    refine pass2NoMatch_cons_nb 't' _ (by decide) ?_
    refine pass2NoMatch_cons_nb 't' _ (by decide) ?_
    refine pass2NoMatch_cons_nb 'p' _ (by decide) ?_
    refine pass2NoMatch_cons_nb ':' _ (by decide) ?_
    refine pass2NoMatch_cons_nb '/' _ (by decide) ?_
    refine pass2NoMatch_cons_nb '/' _ (by decide) ?_
    exact m4
  exact pass2NoMatch_true_of (c8Out U) rfl m5

theorem c8Out_eq (U : List Char) :
    "see ".data ++ (_link (String.mk ("http://".data ++ U))
      (String.mk ("http://".data ++ U))).data ++ ['.'] = c8Out U := by
  simp only [_link, str_data_append, str_mk_data, c8Out, List.append_assoc]
  rfl

theorem pass3F_id (f : Nat) : ∀ (l : List Char), (∀ c ∈ l, c ≠ '[') →
    pass3F f l = l := by
  induction f with
  | zero => intro l _; rfl
  | succ f ih =>
    intro l h
    cases l with
    | nil => rfl
    | cons c r =>
      have hc : c ≠ '[' := h c (List.mem_cons_self c r)
      simp only [pass3F]
      rw [if_neg hc, ih r fun d hd => h d (List.mem_cons_of_mem c hd)]

theorem dropWhile_eq_self_of_head (m : List Char)
    (h : ∀ c, m.head? = some c → isWsU c = false) :
    m.dropWhile (fun c => isWsU c) = m := by
  cases m with
  | nil => rfl
  | cons a r =>
    rw [List.dropWhile_cons, if_neg (by simp [h a rfl])]

theorem stripChars_eq_self (l : List Char)
    (h1 : ∀ c, l.head? = some c → isWsU c = false)
    (h2 : ∀ c, l.getLast? = some c → isWsU c = false) :
    stripChars l = l := by
  show ((l.dropWhile (fun c => isWsU c)).reverse.dropWhile
    (fun c => isWsU c)).reverse = l
  rw [dropWhile_eq_self_of_head l h1,
    dropWhile_eq_self_of_head l.reverse
      (fun c hc => h2 c (by rwa [List.head?_reverse] at hc)),
    List.reverse_reverse]

/-- C8: for every plain text of the shape `"see http://U."` where the URL
body `U` is non-empty and free of whitespace, `'`, `<`, `>` and `[`, the
text markup parser `_parse_text` wraps only `http://U` in the anchor, the
anchor label equals that URL, and the trailing period stays outside the
anchor (the spec's example is the instance `U = "a.b/x"`). -/
theorem c8_url_trailing_period (u : String) (hne : u.data ≠ [])
    (hch : ∀ c ∈ u.data,
      isWsU c = false ∧ c ≠ '\'' ∧ c ≠ '<' ∧ c ≠ '>' ∧ c ≠ '[') :
    _parse_text ("see http://" ++ u ++ ".") =
      "see " ++ _link ("http://" ++ u) ("http://" ++ u) ++ "." := by
  have hch1 : ∀ c ∈ u.data, isWsU c = false ∧ c ≠ '\'' ∧ c ≠ '<' :=
    fun c hc => ⟨(hch c hc).1, (hch c hc).2.1, (hch c hc).2.2.1⟩
  have hU2 : ∀ c ∈ u.data, isWsU c = false ∧ c ≠ '>' :=
    fun c hc => ⟨(hch c hc).1, (hch c hc).2.2.2.1⟩
  have hU3 : ∀ c ∈ u.data, c ≠ '[' := fun c hc => (hch c hc).2.2.2.2
  have hdata : ("see http://" ++ u ++ ".").data =
      "see http://".data ++ (u.data ++ ['.']) := rfl
  have h11 : "see http://".data.length = 11 := rfl
  have h1 : (['.'] : List Char).length = 1 := rfl
  have hfuel : ("see http://".data ++ (u.data ++ ['.'])).length + 1 =
      (u.data.length + 8) + 5 := by
    rw [List.length_append, List.length_append, h11, h1]
    omega
  have hmem : ∀ c ∈ c8Out u.data, c ≠ '[' := by
    intro c hc
    simp only [c8Out, List.mem_append] at hc
    rcases hc with h | h | h | h | h
    · exact (by decide : ∀ x ∈ "see <a href='http://".data, x ≠ '[') c h
    · exact hU3 c h
    · exact (by decide : ∀ x ∈ "'>http://".data, x ≠ '[') c h
    · exact hU3 c h
    · exact (by decide : ∀ x ∈ "</a>.".data, x ≠ '[') c h
  have hhead : ∀ c, (c8Out u.data).head? = some c → isWsU c = false := by
    intro c h
    have h0 : (c8Out u.data).head? = some 's' := rfl
    rw [h0] at h
    injection h with h
    rw [← h]
    decide
  have hsplit : c8Out u.data =
      ("see <a href='http://".data ++ (u.data ++
        ("'>http://".data ++ (u.data ++ "</a>".data)))) ++ ['.'] := by
    simp only [c8Out, List.append_assoc]
    rfl
  have hlast : ∀ c, (c8Out u.data).getLast? = some c → isWsU c = false := by
    intro c h
    have h0 : (c8Out u.data).getLast? = some '.' := by
      rw [hsplit, List.getLast?_concat]
    rw [h0] at h
    injection h with h
    rw [← h]
    decide
  simp only [_parse_text]
  rw [hdata, hfuel, pass1_see u.data hne hch1 (u.data.length + 8),
    c8Out_eq u.data,
    pass2F_fix ((c8Out u.data).length + 1) true (c8Out u.data)
      (c8Out_noMatch2 u.data hU2),
    pass3F_id ((c8Out u.data).length + 1) (c8Out u.data) hmem,
    stripChars_eq_self (c8Out u.data) hhead hlast]
  have hrhs : ("see " ++ _link ("http://" ++ u) ("http://" ++ u) ++ ".").data =
      c8Out u.data := by
    rw [← c8Out_eq u.data]
    rfl
  rw [← hrhs]

theorem c8_url_trailing_period_witness :
    "a.b/x".data ≠ [] ∧
      (∀ c ∈ "a.b/x".data,
        isWsU c = false ∧ c ≠ '\'' ∧ c ≠ '<' ∧ c ≠ '>' ∧ c ≠ '[') ∧
      _parse_text ("see http://" ++ "a.b/x" ++ ".") =
        "see " ++ _link ("http://" ++ "a.b/x") ("http://" ++ "a.b/x") ++ "." :=
  ⟨by decide, by decide,
    c8_url_trailing_period "a.b/x" (by decide) (by decide)⟩

/- ----------------------------------------------------------------------
C5: the `[not all shown]` notice of friend and note items.
---------------------------------------------------------------------- -/

theorem digitChar_ne (m : Nat) : Nat.digitChar m ≠ '[' := by
  by_cases h0 : m = 0
  · subst h0; decide
  by_cases h1 : m = 1
  · subst h1; decide
  by_cases h2 : m = 2
  · subst h2; decide
  by_cases h3 : m = 3
  · subst h3; decide
  by_cases h4 : m = 4
  · subst h4; decide
  by_cases h5 : m = 5
  · subst h5; decide
  by_cases h6 : m = 6
  · subst h6; decide
  by_cases h7 : m = 7
  · subst h7; decide
  by_cases h8 : m = 8
  · subst h8; decide
  by_cases h9 : m = 9
  · subst h9; decide
  by_cases h10 : m = 10
  · subst h10; decide
  by_cases h11 : m = 11
  · subst h11; decide
  by_cases h12 : m = 12
  · subst h12; decide
  by_cases h13 : m = 13
  · subst h13; decide
  by_cases h14 : m = 14
  · subst h14; decide
  by_cases h15 : m = 15
  · subst h15; decide
  simp only [Nat.digitChar]
  rw [if_neg h0, if_neg h1, if_neg h2, if_neg h3, if_neg h4, if_neg h5,
    if_neg h6, if_neg h7, if_neg h8, if_neg h9, if_neg h10, if_neg h11,
    if_neg h12, if_neg h13, if_neg h14, if_neg h15]
  decide

theorem toDigitsCore_ne (base : Nat) :
    ∀ (fuel n : Nat) (ds : List Char), (∀ c ∈ ds, c ≠ '[') →
      ∀ c ∈ Nat.toDigitsCore base fuel n ds, c ≠ '[' := by
  intro fuel
  induction fuel with
  | zero =>
    intro n ds h c hc
    exact h c hc
  | succ fuel ih =>
    intro n ds h c hc
    rw [show Nat.toDigitsCore base (fuel + 1) n ds =
        (if n / base = 0 then (n % base).digitChar :: ds
         else Nat.toDigitsCore base fuel (n / base)
           ((n % base).digitChar :: ds)) from rfl] at hc
    have hds : ∀ x ∈ (n % base).digitChar :: ds, x ≠ '[' := by
      intro x hx
      rcases List.mem_cons.mp hx with h1 | h1
      · rw [h1]; exact digitChar_ne _
      · exact h x h1
    by_cases h0 : n / base = 0
    · rw [if_pos h0] at hc
      exact hds c hc
    · rw [if_neg h0] at hc
      exact ih (n / base) _ hds c hc

theorem nat_repr_ne (n : Nat) : ∀ c ∈ (Nat.repr n).data, c ≠ '[' := by
  intro c hc
  exact toDigitsCore_ne 10 (n + 1) n []
    (fun x hx => absurd hx (List.not_mem_nil x)) c hc

theorem int_toString_ne (i : Int) : ∀ c ∈ (toString i).data, c ≠ '[' := by
  cases i with
  | ofNat m => exact nat_repr_ne m
  | negSucc m =>
    intro c hc
    have hd : (toString (Int.negSucc m)).data =
        '-' :: (Nat.repr (m + 1)).data := rfl
    rw [hd] at hc
    rcases List.mem_cons.mp hc with h1 | h1
    · rw [h1]; decide
    · exact nat_repr_ne (m + 1) c h1

theorem noBracket_append {a b : String} (ha : noBracket a) (hb : noBracket b) :
    noBracket (a ++ b) := by
  intro c hc
  rw [str_data_append] at hc
  rcases List.mem_append.mp hc with h | h
  · exact ha c h
  · exact hb c h

theorem noBracket_join (l : List String) (h : ∀ s ∈ l, noBracket s) :
    noBracket (String.join l) := by
  have hgen : ∀ (t : List String) (acc : String), noBracket acc →
      (∀ s ∈ t, noBracket s) →
      noBracket (t.foldl (fun r s => r ++ s) acc) := by
    intro t
    induction t with
    | nil =>
      intro acc hacc _
      exact hacc
    | cons s u ih =>
      intro acc hacc ht
      exact ih (acc ++ s)
        (noBracket_append hacc (ht s (List.mem_cons_self s u)))
        (fun x hx => ht x (List.mem_cons_of_mem s hx))
  exact hgen l "" (fun c hc => absurd hc (List.not_mem_nil c)) h

theorem noBracket_natStr (n : Nat) : noBracket (toString n) := nat_repr_ne n

theorem noBracket_int (i : Int) : noBracket (toString i) := int_toString_ne i

theorem noBracket_user_url (i : Int) : noBracket (_get_user_url i) := by
  show noBracket ("https://vk.com/" ++
    ((if i < 0 then "club" else "id") ++ toString i.natAbs))
  refine noBracket_append (by decide)
    (noBracket_append ?_ (noBracket_natStr i.natAbs))
  by_cases h : i < 0
  · rw [if_pos h]; decide
  · rw [if_neg h]; decide

theorem noBracket_link {a b : String} (ha : noBracket a) (hb : noBracket b) :
    noBracket (_link a b) :=
  noBracket_append (noBracket_append (noBracket_append
    (noBracket_append (by decide) ha) (by decide)) hb) (by decide)

theorem noBracket_image {u : String} (h : noBracket u) : noBracket (_image u) :=
  noBracket_append (noBracket_append (by decide) h) (by decide)

theorem noBracket_em {s : String} (h : noBracket s) : noBracket (_em s) :=
  noBracket_append (noBracket_append (by decide) h) (by decide)

theorem noBracket_blk {s : String} (h : noBracket s) : noBracket (_block s) :=
  noBracket_append (noBracket_append (by decide) h) (by decide)

theorem noBracket_cell {s : String} (h : noBracket s) : noBracket (tableCell s) :=
  noBracket_append (noBracket_append (by decide) h) (by decide)

theorem noBracket_row {r : List String} (h : ∀ s ∈ r, noBracket s) :
    noBracket (tableRow r) :=
  noBracket_append (noBracket_append (by decide)
    (noBracket_join _ (fun x hx => by
      rcases List.mem_map.mp hx with ⟨s, hs, hsx⟩
      exact hsx ▸ noBracket_cell (h s hs)))) (by decide)

theorem noBracket_table {rows : List (List String)}
    (h : ∀ r ∈ rows, ∀ s ∈ r, noBracket s) : noBracket (_table rows 7) :=
  noBracket_append (noBracket_append (by decide)
    (noBracket_join _ (fun x hx => by
      rcases List.mem_map.mp hx with ⟨r, hr, hrx⟩
      exact hrx ▸ noBracket_row (h r hr)))) (by decide)

theorem noBracket_vk_id {t : String} (ht : noBracket t) (o oid : Int) :
    noBracket (_vk_id t o (some oid)) :=
  noBracket_append (noBracket_append (noBracket_append ht (noBracket_int o))
    (by decide)) (noBracket_int oid)

theorem noBracket_vk_url {s : String} (h : noBracket s) : noBracket (_vk_url s) :=
  noBracket_append (by decide) h

theorem countOccs_append_clean (pat : List Char) (hpat : pat.head? = some '[') :
    ∀ (a b : List Char), (∀ c ∈ a, c ≠ '[') →
      countOccs pat (a ++ b) = countOccs pat b := by
  intro a
  induction a with
  | nil =>
    intro b _
    rw [List.nil_append]
  | cons c r ih =>
    intro b h
    have hc : c ≠ '[' := h c (List.mem_cons_self c r)
    rw [List.cons_append]
    simp only [countOccs]
    rw [ih b (fun d hd => h d (List.mem_cons_of_mem c hd))]
    cases pat with
    | nil => exact absurd hpat (by decide)
    | cons p pt =>
      have hp : p = '[' := by injection hpat
      subst hp
      have hpre : (('[' :: pt).isPrefixOf (c :: (r ++ b))) = false := by
        show (('[' == c) && pt.isPrefixOf (r ++ b)) = false
        have hb : ('[' == c) = false := by
          cases hbe : ('[' == c) with
          | false => rfl
          | true => exact absurd (beq_iff_eq.mp hbe).symm hc
        rw [hb]
        rfl
      rw [hpre]
      simp

theorem countOccs_zero_clean (pat : List Char) (hpat : pat.head? = some '[')
    (a : List Char) (ha : ∀ c ∈ a, c ≠ '[') : countOccs pat a = 0 := by
  have h := countOccs_append_clean pat hpat a [] ha
  rw [List.append_nil] at h
  rw [h]
  cases pat with
  | nil => exact absurd hpat (by decide)
  | cons p pt => rfl

theorem lookup_mem {l : Users} {a : Int} {b : UserInfo}
    (h : List.lookup a l = some b) : (a, b) ∈ l := by
  induction l with
  | nil => exact absurd h (by simp [List.lookup])
  | cons p t ih =>
    obtain ⟨k, v⟩ := p
    rw [List.lookup] at h
    cases hk : (a == k) with
    | true =>
      rw [hk] at h
      injection h with h
      rw [beq_iff_eq] at hk
      subst hk
      subst h
      exact List.mem_cons_self (a, v) t
    | false =>
      rw [hk] at h
      exact List.mem_cons_of_mem (k, v) (ih h)

theorem mapM_ok_forall {α β : Type} (g : α → Except String β) :
    ∀ (l : List α) (out : List β), l.mapM g = Except.ok out →
      ∀ b ∈ out, ∃ a, a ∈ l ∧ g a = Except.ok b := by
  intro l
  induction l with
  | nil =>
    intro out h b hb
    rw [List.mapM_nil] at h
    injection h with h
    subst h
    exact absurd hb (List.not_mem_nil b)
  | cons a t ih =>
    intro out h b hb
    rw [List.mapM_cons] at h
    rw [except_bind_ok] at h
    obtain ⟨x, hx, h2⟩ := h
    rw [except_bind_ok] at h2
    obtain ⟨xs, hxs, h3⟩ := h2
    injection h3 with h3
    subst h3
    rcases List.mem_cons.mp hb with hb | hb
    · refine ⟨a, List.mem_cons_self a t, ?_⟩
      rw [hb]
      exact hx
    · obtain ⟨a2, ha2, hg⟩ := ih xs hxs b hb
      exact ⟨a2, List.mem_cons_of_mem a ha2, hg⟩

/-- C5: for a `friend` item carrying a `friends` field and for every
`note` item that renders, under the invariant that upstream user names,
avatar URLs and note titles contain no `[` (VK HTML-escapes all data,
vk.py line 3), the rendered body contains exactly one occurrence of the
`[показаны не все ...]` notice text when the declared total (position 0 of
the raw list) strictly exceeds the number of entries, and none
otherwise. -/
theorem c5_not_all_shown_notice :
    (∀ (users : Users) (user : UserInfo) (item : ApiItem) (n : Int)
        (fl : List FriendEntry) (fi : FeedItem),
      item.friends = some (n, fl) →
      (∀ p ∈ users, noBracket p.2.name ∧ noBracket p.2.photo) →
      _friend_item users user item = Except.ok (some fi) →
      countOccs "[показаны не все новые друзья]".data fi.text.data =
        (if n > (fl.length : Int) then 1 else 0)) ∧
    (∀ (users : Users) (user : UserInfo) (item : ApiItem) (n : Int)
        (nl : List NoteEntry) (fi : FeedItem),
      item.notes = some (n, nl) →
      (∀ note ∈ nl, noBracket note.title) →
      _note_item users user item = Except.ok (some fi) →
      countOccs "[показаны не все заметки]".data fi.text.data =
        (if n > (nl.length : Int) then 1 else 0)) := by
  constructor
  · intro users user item n fl fi hf husers h
    unfold _friend_item at h
    rw [hf] at h
    have h2 : (fl.mapM (friendRow users) >>= fun rows =>
        (pure (some (friendOut user n fl.length rows)) :
          Except String (Option FeedItem))) = Except.ok (some fi) := h
    rw [except_bind_ok] at h2
    obtain ⟨rows, hrows, hpure⟩ := h2
    have hfi : fi = friendOut user n fl.length rows := by
      injection hpure with hp
      injection hp with hp
      exact hp.symm
    subst hfi
    have hclean : noBracket (_table rows 7) := by
      refine noBracket_table (fun r hr s hs => ?_)
      obtain ⟨f, hfmem, hfr⟩ :=
        mapM_ok_forall (friendRow users) fl rows hrows r hr
      unfold friendRow at hfr
      rw [except_bind_ok] at hfr
      obtain ⟨u, hu, hpu⟩ := hfr
      rw [getOpt_ok_iff] at hu
      have hnb := husers (f.uid, u) (lookup_mem hu)
      have hr2 : r = [_link (_get_user_url u.id) (_image u.photo),
          _link (_get_user_url u.id) u.name] := by
        injection hpu with hp
        exact hp.symm
      subst hr2
      rcases List.mem_cons.mp hs with hs | hs
      · subst hs
        exact noBracket_link (noBracket_user_url u.id) (noBracket_image hnb.2)
      rcases List.mem_cons.mp hs with hs | hs
      · subst hs
        exact noBracket_link (noBracket_user_url u.id) hnb.1
      · exact absurd hs (List.not_mem_nil s)
    have htext : (friendOut user n fl.length rows).text =
        (if n > (fl.length : Int) then
          _table rows 7 ++ _block "[показаны не все новые друзья]"
        else _table rows 7) := rfl
    rw [htext]
    by_cases hcond : n > (fl.length : Int)
    · rw [if_pos hcond, if_pos hcond, str_data_append,
        countOccs_append_clean "[показаны не все новые друзья]".data rfl _ _
          hclean]
      decide
    · rw [if_neg hcond, if_neg hcond]
      exact countOccs_zero_clean "[показаны не все новые друзья]".data rfl _
        hclean
  · intro users user item n nl fi hn hnotes h
    unfold _note_item at h
    rw [hn] at h
    have h2 : (getIdx nl 0 >>= fun first =>
        (pure (some (noteOut user n nl first)) :
          Except String (Option FeedItem))) = Except.ok (some fi) := h
    rw [except_bind_ok] at h2
    obtain ⟨first, hfirst, hpure⟩ := h2
    have hfi : fi = noteOut user n nl first := by
      injection hpure with hp
      injection hp with hp
      exact hp.symm
    subst hfi
    have hclean : noBracket (String.join (nl.map (fun note =>
        _block (_em ("Заметка: " ++
          _vk_link (_vk_id "note" note.owner_id (some note.nid))
            note.title))))) := by
      refine noBracket_join _ (fun x hx => ?_)
      rcases List.mem_map.mp hx with ⟨note, hnote, hxe⟩
      subst hxe
      exact noBracket_blk (noBracket_em (noBracket_append (by decide)
        (noBracket_link (noBracket_vk_url (noBracket_vk_id (by decide)
          note.owner_id note.nid)) (hnotes note hnote))))
    have htext : (noteOut user n nl first).text =
        (if n > (nl.length : Int) then
          String.join (nl.map (fun note =>
            _block (_em ("Заметка: " ++
              _vk_link (_vk_id "note" note.owner_id (some note.nid))
                note.title)))) ++ _block "[показаны не все заметки]"
        else String.join (nl.map (fun note =>
          _block (_em ("Заметка: " ++
            _vk_link (_vk_id "note" note.owner_id (some note.nid))
              note.title))))) := rfl
    rw [htext]
    by_cases hcond : n > (nl.length : Int)
    · rw [if_pos hcond, if_pos hcond, str_data_append,
        countOccs_append_clean "[показаны не все заметки]".data rfl _ _
          hclean]
      decide
    · rw [if_neg hcond, if_neg hcond]
      exact countOccs_zero_clean "[показаны не все заметки]".data rfl _ hclean

theorem c5_not_all_shown_notice_witness :
    countOccs "[показаны не все новые друзья]".data
      ("<table><tr><td><a href='https://vk.com/id2'><img src='P2' /></a></td><td><a href='https://vk.com/id2'>Bob</a></td></tr></table><p>[показаны не все новые друзья]</p>" : String).data = 1 ∧
    countOccs "[показаны не все заметки]".data
      ("<p><em>Заметка: <a href='https://vk.com/note5_7'>T</a></em></p>" : String).data = 0 := by
  constructor
  · have h := c5_not_all_shown_notice.1 [(2, UserInfo.mk 2 "Bob" "P2")]
      (UserInfo.mk 1 "Ann" "P1") { friends := some (3, [FriendEntry.mk 2]) }
      3 [FriendEntry.mk 2]
      (FeedItem.mk "Ann: новые друзья"
        "<table><tr><td><a href='https://vk.com/id2'><img src='P2' /></a></td><td><a href='https://vk.com/id2'>Bob</a></td></tr></table><p>[показаны не все новые друзья]</p>"
        (some "https://vk.com/friends?id=1&section=all") none none none none)
      rfl (by decide) rfl
    simpa using h
  · have h := c5_not_all_shown_notice.2 [] (UserInfo.mk 1 "Ann" "P1")
      { notes := some (1, [NoteEntry.mk 5 7 "T"]) } 1 [NoteEntry.mk 5 7 "T"]
      (FeedItem.mk "Ann: заметка"
        "<p><em>Заметка: <a href='https://vk.com/note5_7'>T</a></em></p>"
        (some "https://vk.com/note5_7") none none none none)
      rfl (by decide) rfl
    simpa using h

end SocialRss
